import Mathlib

/-!
Verification of the VOUCH backend (vouch-backend) against its specification.

The development shallowly embeds the TypeScript sources:
* `src/services/rule-engine.ts`  — condition validation and rule evaluation;
* `src/services/proof-generator.ts` — canonical payload construction and the
  AES-256-GCM envelope framing;
* `src/jobs/batch-proofs.ts` — Merkle root computation;
* `src/routes/prove.ts` together with `src/db.ts` — the issue-attestation
  coordinator and its transaction boundary.

JavaScript runtime values that can occur as condition values or action-record
entries are modelled by the inductive type `Json` below.  Numbers are modelled
on the integer fragment (`Int`): every number exercised by a claim is an
integer, and JSON input cannot carry `NaN`/`Infinity`.  JavaScript object
property access, truthiness, `===`, `Number(...)` and `String(...)` coercions
are modelled by the functions `jsTruthy`, `jsStrictEq`, `jsToNumber` and
`jsToString`.  Since a condition value and an action value always originate
from two independent JSON parses (database row vs. request body), two compound
values (arrays / objects) are never the same object reference, so `===` on two
compound values is modelled as `false`.
-/

set_option maxRecDepth 10000

namespace Vouch

/-- JSON-like JavaScript runtime values (integer-fragment numbers), plus the
values a property read can inherit from `Object.prototype`: `protoMember n`
stands for the member named `n` — a native function for the eleven
function-valued members, and the `Object.prototype` object itself for
`__proto__`.  Parsed JSON never contains `protoMember` values; they arise
only from property reads of absent keys (see `jsGet`). -/
inductive Json where
  | null : Json
  | bool (b : Bool) : Json
  | num (n : Int) : Json
  | str (s : String) : Json
  | arr (elems : List Json) : Json
  | obj (fields : List (String × Json)) : Json
  | protoMember (name : String) : Json

/-- The ten condition operators of `rule-engine.ts` (`VALID_OPS`). -/
inductive Op where
  | eqOp | neOp | ltOp | leOp | gtOp | geOp
  | inOp | notInOp | containsOp | notContainsOp
deriving DecidableEq

/-- The operator's source string, as it appears in rule JSON. -/
def opToString : Op → String
  | .eqOp => "="
  | .neOp => "!="
  | .ltOp => "<"
  | .leOp => "<="
  | .gtOp => ">"
  | .geOp => ">="
  | .inOp => "IN"
  | .notInOp => "NOT IN"
  | .containsOp => "CONTAINS"
  | .notContainsOp => "NOT CONTAINS"

/-- `interface Condition` of `rule-engine.ts` (a well-typed condition, as
evaluated at runtime after validation). -/
structure Condition where
  field : String
  op : Op
  value : Json

/-- `interface EvalResult` of `rule-engine.ts`. -/
structure EvalResult where
  field : String
  op : String
  expected : Json
  actual : Json
  pass : Bool

/-- `interface RuleEvaluation` of `rule-engine.ts`. -/
structure RuleEvaluation where
  rule_met : Bool
  evaluation : List EvalResult
  summary : String

/-- JavaScript truthiness of a `Json` value. -/
def jsTruthy : Json → Bool
  | .null => false
  | .bool b => b
  | .num n => !(n == 0)
  | .str s => !(s == "")
  | .arr _ => true
  | .obj _ => true
  | .protoMember _ => true

/-- JavaScript strict equality `===` between a condition value and an action
value.  Scalar values compare structurally; two compound values originate from
independent JSON parses in this code path and are therefore never the same
reference, so they compare unequal. -/
def jsStrictEq : Json → Json → Bool
  | .null, .null => true
  | .bool a, .bool b => a == b
  | .num a, .num b => a == b
  | .str a, .str b => a == b
  | _, _ => false

/-- `Number(s)` on the decimal-integer fragment of strings: optional
whitespace, optional sign, digits.  The empty (or all-blank) string converts
to `0`; anything else is `NaN`, modelled as `none`. -/
def strToNumber (s : String) : Option Int :=
  let chars := s.toList.filter (fun c => !(c == ' '))
  match chars with
  | [] => some 0
  | '-' :: ds => (digitsToNat ds).map (fun n => -(n : Int))
  | '+' :: ds => (digitsToNat ds).map (fun n => (n : Int))
  | ds => (digitsToNat ds).map (fun n => (n : Int))
where
  digitsToNat : List Char → Option Nat
  | [] => none
  | ds =>
    if ds.all (fun c => c.isDigit) then
      some (ds.foldl (fun acc c => acc * 10 + (c.toNat - 48)) 0)
    else none

mutual

/-- JavaScript `String(v)` coercion. -/
def jsToString : Json → String
  | .null => "null"
  | .bool b => if b then "true" else "false"
  | .num n => toString n
  | .str s => s
  | .arr xs => jsArrJoin xs
  | .obj _ => "[object Object]"
  | .protoMember name =>
    if name == "__proto__" then "[object Object]"
    else "function " ++ name ++ "() \x7b [native code] \x7d"

/-- `Array.prototype.toString`: elements joined with commas, `null` rendered
as the empty string. -/
def jsArrJoin : List Json → String
  | [] => ""
  | [Json.null] => ""
  | [x] => jsToString x
  | Json.null :: y :: rest => "," ++ jsArrJoin (y :: rest)
  | x :: y :: rest => jsToString x ++ "," ++ jsArrJoin (y :: rest)

end

/-- JavaScript `Number(v)` coercion (`none` = `NaN`). -/
def jsToNumber : Json → Option Int
  | .null => some 0
  | .bool b => some (if b then 1 else 0)
  | .num n => some n
  | .str s => strToNumber s
  | .arr xs => strToNumber (jsArrJoin xs)
  | .obj _ => none
  | .protoMember _ => none

/-- Is `needle` a prefix of `haystack`? -/
def isPreOf : List Char → List Char → Bool
  | [], _ => true
  | _ :: _, [] => false
  | n :: ns, h :: hs => n == h && isPreOf ns hs

/-- Does `haystack` contain `needle` as a contiguous run? -/
def hasSub (haystack needle : List Char) : Bool :=
  match haystack with
  | [] => needle.isEmpty
  | _ :: t => isPreOf needle haystack || hasSub t needle

/-- `String.prototype.includes`. -/
def strContainsSub (s sub : String) : Bool :=
  hasSub s.toList sub.toList

/-- `Array.prototype.includes` (SameValueZero, which coincides with `===`
here). -/
def jsIncludes (xs : List Json) (a : Json) : Bool :=
  xs.any (fun x => jsStrictEq x a)

/-- The `switch (cond.op)` of `evaluateRule`, for a present, non-null
`actual`. -/
def passFor : Op → Json → Json → Bool
  | .eqOp, actual, v => jsStrictEq actual v
  | .neOp, actual, v => !(jsStrictEq actual v)
  | .ltOp, actual, v =>
    match jsToNumber actual, jsToNumber v with
    | some a, some b => decide (a < b)
    | _, _ => false
  | .leOp, actual, v =>
    match jsToNumber actual, jsToNumber v with
    | some a, some b => decide (a ≤ b)
    | _, _ => false
  | .gtOp, actual, v =>
    match jsToNumber actual, jsToNumber v with
    | some a, some b => decide (b < a)
    | _, _ => false
  | .geOp, actual, v =>
    match jsToNumber actual, jsToNumber v with
    | some a, some b => decide (b ≤ a)
    | _, _ => false
  | .inOp, actual, v =>
    match v with
    | .arr xs => jsIncludes xs actual
    | _ => false
  | .notInOp, actual, v =>
    match v with
    | .arr xs => !(jsIncludes xs actual)
    | _ => false
  | .containsOp, actual, v =>
    match actual with
    | .str s => strContainsSub s (jsToString v)
    | _ => false
  | .notContainsOp, actual, v =>
    match actual with
    | .str s => !(strContainsSub s (jsToString v))
    | _ => false

/-- The enumerable-and-not members inherited from `Object.prototype` by every
plain object (the action record reaching `evaluateRule` is built by
`JSON.parse` and re-assembled by the zod `record` parser, so its prototype is
`Object.prototype`). -/
def objectProtoKeys : List String :=
  ["constructor", "hasOwnProperty", "isPrototypeOf", "propertyIsEnumerable",
   "toLocaleString", "toString", "valueOf", "__defineGetter__",
   "__defineSetter__", "__lookupGetter__", "__lookupSetter__", "__proto__"]

/-- Whether a key names an `Object.prototype` member. -/
def isProtoKey (k : String) : Bool := objectProtoKeys.contains k

/-- JavaScript property read `actionData[field]` on a plain object: an own
property wins; an absent key that names an `Object.prototype` member yields
the inherited value (a native function, or `Object.prototype` itself for
`__proto__`); otherwise the read is `undefined`, modeled as `none`. -/
def jsGet (actionData : List (String × Json)) (k : String) : Option Json :=
  match List.lookup k actionData with
  | some v => some v
  | none => if isProtoKey k then some (Json.protoMember k) else Option.none

/-- One iteration of the `conditions.map` body of `evaluateRule`:
read the field off the action record (through the prototype chain, as the
source's `actionData[cond.field]` does); an `undefined` or `null` actual is
an automatic fail with `actual = null`. -/
def evalCondition (actionData : List (String × Json)) (c : Condition) : EvalResult :=
  match jsGet actionData c.field with
  | none => ⟨c.field, opToString c.op, c.value, Json.null, false⟩
  | some Json.null => ⟨c.field, opToString c.op, c.value, Json.null, false⟩
  | some actual => ⟨c.field, opToString c.op, c.value, actual, passFor c.op actual c.value⟩

/-- `evaluateRule` of `rule-engine.ts`: map every condition to a result, then
aggregate `rule_met = total > 0 && every pass` and build the summary string. -/
def evaluateRule (conditions : List Condition) (actionData : List (String × Json)) :
    RuleEvaluation :=
  let results := conditions.map (evalCondition actionData)
  let passed := (results.filter (fun r => r.pass)).length
  let total := results.length
  let rule_met := decide (total > 0) && results.all (fun r => r.pass)
  { rule_met := rule_met
    evaluation := results
    summary :=
      if rule_met then
        "All " ++ toString total ++ " condition" ++ (if total > 1 then "s" else "") ++ " passed"
      else
        toString (total - passed) ++ " of " ++ toString total ++ " condition" ++
          (if total > 1 then "s" else "") ++ " failed" }

/-!  ## Registration-time validation (`validateConditions`)

`validateConditions` receives `conditions: any[]`: each element is an
arbitrary value whose `field` / `op` / `value` properties are read.  A raw
condition is therefore a triple of optional `Json` values, `none` standing
for an absent property (JavaScript `undefined`). -/

/-- A raw, not yet validated condition as it arrives at registration. -/
structure RawCondition where
  field : Option Json
  op : Option Json
  value : Option Json

/-- The failure cases of `validateConditions`.  Each constructor stands for
one of the human-readable error strings of the source (carrying the condition
index where the source interpolates it):
`notNonEmptyArray` = "Conditions must be a non-empty array",
`tooManyConditions` = "Maximum 20 conditions per rule",
`badField i` = "Condition i: field must be a non-empty string",
`badOp i` = "Condition i: invalid operator ...",
`missingValue i` = "Condition i: value is required",
`inRequiresArray i` = "Condition i: ... operator requires an array value",
`numericRequiresNumber i` = "Condition i: ... operator requires a numeric value". -/
inductive CondViolation where
  | notNonEmptyArray
  | tooManyConditions
  | badField (i : Nat)
  | badOp (i : Nat)
  | missingValue (i : Nat)
  | inRequiresArray (i : Nat)
  | numericRequiresNumber (i : Nat)
deriving DecidableEq

/-- The source's field check `!c.field || typeof c.field !== 'string'`
negated: it passes exactly when `field` is a truthy string, i.e. a non-empty
string. -/
def fieldOk (f : Option Json) : Bool :=
  match f with
  | some (Json.str s) => jsTruthy (Json.str s)
  | _ => false

/-- `VALID_OPS.has(c.op)` with the matched operator:
membership of the `op` property in the set of the ten operator strings. -/
def parseOp (o : Option Json) : Option Op :=
  match o with
  | some (Json.str "=") => some .eqOp
  | some (Json.str "!=") => some .neOp
  | some (Json.str "<") => some .ltOp
  | some (Json.str "<=") => some .leOp
  | some (Json.str ">") => some .gtOp
  | some (Json.str ">=") => some .geOp
  | some (Json.str "IN") => some .inOp
  | some (Json.str "NOT IN") => some .notInOp
  | some (Json.str "CONTAINS") => some .containsOp
  | some (Json.str "NOT CONTAINS") => some .notContainsOp
  | _ => none

/-- Is the value a JavaScript array (`Array.isArray`)? -/
def isArrB : Json → Bool
  | .arr _ => true
  | _ => false

/-- Is the value a JavaScript number (`typeof v === 'number'`)? -/
def isNumB : Json → Bool
  | .num _ => true
  | _ => false

/-- Is the operator one of `<`, `<=`, `>`, `>=`? -/
def isNumericOp : Op → Bool
  | .ltOp => true
  | .leOp => true
  | .gtOp => true
  | .geOp => true
  | _ => false

/-- The per-condition checks of the `for` loop of `validateConditions`, in
source order: field, operator, value presence, `IN`/`NOT IN` arrayness,
numeric-operator numberness. -/
def checkCondition (i : Nat) (c : RawCondition) : Option CondViolation :=
  if fieldOk c.field = false then some (.badField i)
  else
    match parseOp c.op with
    | none => some (.badOp i)
    | some op =>
      match c.value with
      | none => some (.missingValue i)
      | some v =>
        if (op == Op.inOp || op == Op.notInOp) && !(isArrB v) then
          some (.inRequiresArray i)
        else if isNumericOp op && !(isNumB v) then
          some (.numericRequiresNumber i)
        else none

/-- The indexed `for` loop of `validateConditions`: return the first
condition's violation, scanning left to right. -/
def validateLoop : Nat → List RawCondition → Option CondViolation
  | _, [] => none
  | i, c :: rest =>
    match checkCondition i c with
    | some e => some e
    | none => validateLoop (i + 1) rest

/-- `validateConditions` of `rule-engine.ts`.  `none` models
`{valid: true}`; `some e` models `{valid: false, error: ...}`. -/
def validateConditions (conditions : List RawCondition) : Option CondViolation :=
  if conditions.length = 0 then some .notNonEmptyArray
  else if conditions.length > 20 then some .tooManyConditions
  else validateLoop 0 conditions

/-!  ### The specification's reading of `validateConditions`

`validateSpec` below is written from the claim's words (not from the source):
OK exactly when none of the violations holds, otherwise the first violation in
input order among: empty list; more than 20 conditions; condition missing
`field`; `field` not a non-empty string; unknown operator; `value` absent;
`IN` / `NOT IN` value not a list; `<`, `<=`, `>`, `>=` value not a real
number.  It is compared with the source embedding in the claim's theorem. -/

/-- Specification predicate: the `field` property is a string of length at
least 1. -/
def isNonEmptyStrField (f : Option Json) : Bool :=
  match f with
  | some (Json.str s) => decide (s ≠ "")
  | _ => false

/-- Specification predicate: the `value` property is present and is a list. -/
def valueIsList (v : Option Json) : Bool :=
  match v with
  | some (Json.arr _) => true
  | _ => false

/-- Specification predicate: the `value` property is present and is a real
number. -/
def valueIsNumber (v : Option Json) : Bool :=
  match v with
  | some (Json.num _) => true
  | _ => false

/-- One condition's first violation, enumerated in the specification's
order. -/
def specCheck (i : Nat) (c : RawCondition) : Option CondViolation :=
  if c.field.isNone then some (.badField i)
  else if !(isNonEmptyStrField c.field) then some (.badField i)
  else if (parseOp c.op).isNone then some (.badOp i)
  else if c.value.isNone then some (.missingValue i)
  else if (parseOp c.op == some Op.inOp || parseOp c.op == some Op.notInOp) &&
      !(valueIsList c.value) then some (.inRequiresArray i)
  else if (match parseOp c.op with
           | some op => isNumericOp op
           | none => false) && !(valueIsNumber c.value) then
    some (.numericRequiresNumber i)
  else none

/-- The specification-side validator: empty list, length bound, then the first
per-condition violation in input order. -/
def validateSpec (conditions : List RawCondition) : Option CondViolation :=
  if conditions.isEmpty then some .notNonEmptyArray
  else if conditions.length > 20 then some .tooManyConditions
  else (conditions.enum).findSome? (fun p => specCheck p.1 p.2)

/-! ## Lemmas about the rule engine -/

/-- Counting the failing results is the same as subtracting the passing ones
from the total. -/
theorem length_filter_not_pass {α : Type} (p : α → Bool) (l : List α) :
    (l.filter (fun a => !(p a))).length = l.length - (l.filter p).length := by
  induction l with
  | nil => simp
  | cons a t ih =>
    have hle := List.length_filter_le p t
    by_cases h : p a = true
    · simp [List.filter_cons, h, ih]
    · simp only [Bool.not_eq_true] at h
      simp [List.filter_cons, h, ih]
      omega

/-- Scalar `Json` values (everything except arrays, objects and inherited
`Object.prototype` members, which are all reference values). -/
def isScalarB : Json → Bool
  | .arr _ => false
  | .obj _ => false
  | .protoMember _ => false
  | _ => true

/-- On pairs where at least one side is scalar, the runtime `===` agrees with
structural type-plus-value equality. -/
theorem jsStrictEq_eq_true_iff (v w : Json) (h : isScalarB v = true ∨ isScalarB w = true) :
    jsStrictEq v w = true ↔ v = w := by
  cases v <;> cases w <;>
    simp_all [jsStrictEq, isScalarB]

/-- Specification-side summary string for a met rule over `n` conditions. -/
def passSummary (n : Nat) : String :=
  "All " ++ toString n ++ " condition" ++ (if n > 1 then "s" else "") ++ " passed"

/-- Specification-side summary string for an unmet rule: `k` failing results
out of `n` conditions. -/
def failSummary (k n : Nat) : String :=
  toString k ++ " of " ++ toString n ++ " condition" ++ (if n > 1 then "s" else "") ++ " failed"

/-- The summary branch of `evaluateRule`, over an arbitrary result list:
the code's `total - passed` count agrees with the specification's
"number of failing results". -/
theorem summaryAux (results : List EvalResult) (n : Nat) (hlen : results.length = n) :
    (if (decide (0 < results.length) && results.all (fun r => r.pass)) = true then
      "All " ++ toString results.length ++ " condition" ++
        (if results.length > 1 then "s" else "") ++ " passed"
    else
      toString (results.length - (results.filter (fun r => r.pass)).length) ++ " of " ++
        toString results.length ++ " condition" ++
        (if results.length > 1 then "s" else "") ++ " failed")
    = (if (decide (0 < results.length) && results.all (fun r => r.pass)) = true then
        passSummary n
      else failSummary ((results.filter (fun e => !(e.pass))).length) n) := by
  subst hlen
  rcases hb : decide (0 < results.length) && results.all (fun r => r.pass) with _ | _ <;>
    simp [hb, passSummary, failSummary, length_filter_not_pass]

/-- C5: `evaluateRule` returns `rule_met = true` exactly when every
per-condition result passes (for a non-empty condition list), returns
`rule_met = false` for a zero-condition list, and produces the summary
"All N condition(s) passed" when met and "K of N condition(s) failed"
otherwise, with `N` the number of conditions and `K` the number of results
whose `pass` is `false`. -/
theorem evaluateRule_met_and_summary (conditions : List Condition)
    (actionData : List (String × Json)) :
    (conditions ≠ [] →
      ((evaluateRule conditions actionData).rule_met = true ↔
        ∀ e ∈ (evaluateRule conditions actionData).evaluation, e.pass = true))
    ∧ (conditions = [] → (evaluateRule conditions actionData).rule_met = false)
    ∧ (evaluateRule conditions actionData).summary =
        (if (evaluateRule conditions actionData).rule_met then
          passSummary conditions.length
        else
          failSummary
            (((evaluateRule conditions actionData).evaluation.filter
              (fun e => !(e.pass))).length)
            conditions.length) := by
  refine ⟨?_, ?_, ?_⟩
  · intro hne
    have hpos : 0 < (conditions.map (evalCondition actionData)).length := by
      rw [List.length_map]
      exact List.length_pos.mpr hne
    show (decide (0 < (conditions.map (evalCondition actionData)).length)
        && (conditions.map (evalCondition actionData)).all (fun r => r.pass)) = true ↔ _
    rw [decide_eq_true hpos, Bool.true_and]
    exact List.all_eq_true
  · intro he
    subst he
    rfl
  · exact summaryAux (conditions.map (evalCondition actionData)) conditions.length
      (List.length_map _ _)

/-- C5 witness: a concrete one-condition rule over a concrete record, with the
non-emptiness hypotheses discharged. -/
theorem evaluateRule_met_and_summary_witness :
    (evaluateRule [⟨"amount", Op.leOp, Json.num 10⟩] [("amount", Json.num 3)]).rule_met = true
    ∧ (evaluateRule ([] : List Condition) [("amount", Json.num 3)]).rule_met = false :=
  ⟨((evaluateRule_met_and_summary [⟨"amount", Op.leOp, Json.num 10⟩]
        [("amount", Json.num 3)]).1 (List.cons_ne_nil _ _)).mpr (by decide),
   (evaluateRule_met_and_summary ([] : List Condition) [("amount", Json.num 3)]).2.1 rfl⟩

/-- C10 counterexample: a condition whose field names an `Object.prototype`
member.  With rule `[{toString != 1}]` and the empty action record, the
source's read `actionData['toString']` finds no own property but reaches the
inherited `Object.prototype.toString` function through the prototype chain:
the actual is that function — not `null` — the `undefined`/`null` guard does
not fire, `'!='` compares the function against `1` and passes, and the rule
is met.  This refutes "for every condition whose field is absent from the
action record ... pass = false and actual = null". -/
theorem evaluateRule_proto_field_counterexample :
    (evaluateRule [⟨"toString", Op.neOp, Json.num 1⟩] []).evaluation =
      [⟨"toString", "!=", Json.num 1, Json.protoMember "toString", true⟩]
    ∧ (evaluateRule [⟨"toString", Op.neOp, Json.num 1⟩] []).rule_met = true :=
  ⟨rfl, rfl⟩

/-- C10 (amended): evaluation is total and produces exactly one result per
condition.  A condition whose field maps to `null`, or is absent from the
action record and does not name an `Object.prototype` member, yields the
result `{field, op, expected, actual = null, pass = false}`.  A condition
whose field is absent but names an `Object.prototype` member (`toString`,
`hasOwnProperty`, `constructor`, ...) instead reads the inherited member —
a non-null value — and the pass is decided by the operator on it.
(Totality — "raises no exception, always returns normally" — holds by
construction: `evaluateRule` is a total function.) -/
theorem evaluateRule_missing_field_policy (conds : List Condition)
    (data : List (String × Json)) :
    (evaluateRule conds data).evaluation.length = conds.length
    ∧ (∀ (i : Nat) (h1 : i < conds.length)
        (h2 : i < (evaluateRule conds data).evaluation.length),
        ((List.lookup (conds.get ⟨i, h1⟩).field data = Option.none ∧
            isProtoKey (conds.get ⟨i, h1⟩).field = false) ∨
          List.lookup (conds.get ⟨i, h1⟩).field data = some Json.null) →
        (evaluateRule conds data).evaluation.get ⟨i, h2⟩ =
          ⟨(conds.get ⟨i, h1⟩).field, opToString (conds.get ⟨i, h1⟩).op,
            (conds.get ⟨i, h1⟩).value, Json.null, false⟩)
    ∧ (∀ (i : Nat) (h1 : i < conds.length)
        (h2 : i < (evaluateRule conds data).evaluation.length),
        List.lookup (conds.get ⟨i, h1⟩).field data = Option.none →
        isProtoKey (conds.get ⟨i, h1⟩).field = true →
        (evaluateRule conds data).evaluation.get ⟨i, h2⟩ =
          ⟨(conds.get ⟨i, h1⟩).field, opToString (conds.get ⟨i, h1⟩).op,
            (conds.get ⟨i, h1⟩).value, Json.protoMember (conds.get ⟨i, h1⟩).field,
            passFor (conds.get ⟨i, h1⟩).op
              (Json.protoMember (conds.get ⟨i, h1⟩).field)
              (conds.get ⟨i, h1⟩).value⟩) := by
  refine ⟨by simp [evaluateRule], ?_, ?_⟩
  · intro i h1 h2 hmiss
    have hget : (evaluateRule conds data).evaluation.get ⟨i, h2⟩
        = evalCondition data (conds.get ⟨i, h1⟩) := by
      simp [evaluateRule, List.get_map]
    rw [hget]
    simp only [List.get_eq_getElem] at hmiss
    rcases hmiss with ⟨hm, hp⟩ | hm
    · simp [evalCondition, jsGet, hm, hp]
    · simp [evalCondition, jsGet, hm]
  · intro i h1 h2 hm hp
    have hget : (evaluateRule conds data).evaluation.get ⟨i, h2⟩
        = evalCondition data (conds.get ⟨i, h1⟩) := by
      simp [evaluateRule, List.get_map]
    rw [hget]
    simp only [List.get_eq_getElem] at hm hp
    simp [evalCondition, jsGet, hm, hp]

/-- C10 witness: the specification's literal scenario — rule
`[{amount ≤ 10000}]`, action `{}` — has one result with `actual = null`,
`pass = false` (`amount` is no `Object.prototype` member). -/
theorem evaluateRule_missing_field_policy_witness :
    (evaluateRule [⟨"amount", Op.leOp, Json.num 10000⟩] []).evaluation.length = 1
    ∧ (evaluateRule [⟨"amount", Op.leOp, Json.num 10000⟩] []).evaluation.get
        ⟨0, by simp [evaluateRule]⟩ =
      ⟨"amount", "<=", Json.num 10000, Json.null, false⟩ :=
  ⟨(evaluateRule_missing_field_policy [⟨"amount", Op.leOp, Json.num 10000⟩] []).1,
   (evaluateRule_missing_field_policy [⟨"amount", Op.leOp, Json.num 10000⟩] []).2.1
      0 (by simp) (by simp [evaluateRule]) (Or.inl ⟨rfl, rfl⟩)⟩

/-- C6 counterexample: with `op = '='`, `value = [1]` and action
`{x: [1]}`, the actual value type-plus-value-equals the expected value (both
are the list `[1]`), yet the result does not pass: the runtime `===` compares
compound values by reference, and the two lists come from different parses.
This refutes "passes iff the actual value strictly equals (type plus value)
the condition's value" as a statement about all values. -/
theorem evalCondition_array_equality_counterexample :
    (evaluateRule [⟨"x", Op.eqOp, Json.arr [Json.num 1]⟩]
        [("x", Json.arr [Json.num 1])]).evaluation =
      [⟨"x", "=", Json.arr [Json.num 1], Json.arr [Json.num 1], false⟩] := rfl

/-- C6 (amended): for `'='` (respectively `'!='`) conditions whose field is
present with a non-null value, when at least one of the two compared values is
a scalar, the result passes iff the actual value is structurally equal
(type plus value, no coercion) to the condition's value (respectively,
structurally unequal).  In particular the string `"1"` does not satisfy
`= 1`.  (For two compound values, `===` is reference equality and fails for
separately materialized equal lists — see the counterexample.) -/
theorem evalCondition_strict_equality (c : Condition) (data : List (String × Json))
    (v : Json) (hlook : List.lookup c.field data = some v) (hnull : v ≠ Json.null)
    (hscalar : isScalarB v = true ∨ isScalarB c.value = true) :
    (c.op = Op.eqOp → ((evalCondition data c).pass = true ↔ v = c.value))
    ∧ (c.op = Op.neOp → ((evalCondition data c).pass = true ↔ v ≠ c.value)) := by
  have hpass : (evalCondition data c).pass = passFor c.op v c.value := by
    cases v <;> simp [evalCondition, jsGet, hlook] <;> simp_all
  constructor
  · intro hop
    rw [hpass, hop]
    simpa [passFor] using jsStrictEq_eq_true_iff v c.value hscalar
  · intro hop
    rw [hpass, hop]
    simp only [passFor, Bool.not_eq_true']
    rw [← Bool.not_eq_true (jsStrictEq v c.value)]
    exact not_congr (jsStrictEq_eq_true_iff v c.value hscalar)

/-- C6 witness: the claim's own example — the string `"1"` compared with
`= 1` — instantiated through the amended theorem: the result passes iff
`Json.str "1" = Json.num 1`, which is false, and indeed the result fails. -/
theorem evalCondition_strict_equality_witness :
    ((evalCondition [("x", Json.str "1")] ⟨"x", Op.eqOp, Json.num 1⟩).pass = true ↔
      Json.str "1" = Json.num 1) :=
  (evalCondition_strict_equality ⟨"x", Op.eqOp, Json.num 1⟩ [("x", Json.str "1")]
    (Json.str "1") rfl (by intro h; cases h) (Or.inl rfl)).1 rfl

/-- The source's field check equals "present and a non-empty string". -/
theorem fieldOk_eq (f : Option Json) :
    fieldOk f = (!(f.isNone) && isNonEmptyStrField f) := by
  cases f with
  | none => rfl
  | some j =>
    cases j <;> simp [fieldOk, isNonEmptyStrField, jsTruthy]
    rename_i s
    by_cases hs : s = "" <;> simp [hs]

/-- The per-condition checks of the source agree with the specification's
enumeration, violation by violation and in the same order. -/
theorem checkCondition_eq_specCheck (i : Nat) (c : RawCondition) :
    checkCondition i c = specCheck i c := by
  rcases hfo : fieldOk c.field with _ | _
  · rw [fieldOk_eq] at hfo
    by_cases hn : c.field.isNone = true
    · simp [checkCondition, specCheck, hn, fieldOk_eq]
    · have hne : isNonEmptyStrField c.field = false := by
        rcases hb : isNonEmptyStrField c.field with _ | _
        · rfl
        · rw [hb] at hfo
          simp [hn] at hfo
      simp [checkCondition, specCheck, hn, fieldOk_eq, hne]
  · rw [fieldOk_eq] at hfo
    have hn : c.field.isNone = false := by
      rcases hb : c.field.isNone with _ | _
      · rfl
      · rw [hb] at hfo
        simp at hfo
    have hne : isNonEmptyStrField c.field = true := by
      rcases hb : isNonEmptyStrField c.field with _ | _
      · rw [hb] at hfo
        simp at hfo
      · rfl
    rcases hop : parseOp c.op with _ | op
    · simp [checkCondition, specCheck, hn, hne, hop, fieldOk_eq]
    · rcases hv : c.value with _ | v
      · simp [checkCondition, specCheck, hn, hne, hop, hv, fieldOk_eq]
      · cases op <;> cases v <;>
          simp [checkCondition, specCheck, hn, hne, hop, hv, fieldOk_eq, isNumericOp,
            isArrB, isNumB, valueIsList, valueIsNumber]

/-- The indexed validation loop is the first violation of the index-annotated
condition list. -/
theorem validateLoop_eq (cs : List RawCondition) : ∀ i : Nat,
    validateLoop i cs = (List.enumFrom i cs).findSome? (fun p => specCheck p.1 p.2) := by
  induction cs with
  | nil => intro i; rfl
  | cons c t ih =>
    intro i
    show (match checkCondition i c with
          | some e => some e
          | none => validateLoop (i + 1) t) = _
    rw [checkCondition_eq_specCheck]
    rcases h : specCheck i c with _ | e
    · simp [List.enumFrom, List.findSome?_cons, h, ih]
    · simp [List.enumFrom, List.findSome?_cons, h]

/-- C8: `validateConditions` accepts exactly the condition lists with none of
the specified violations, and otherwise reports the first violation in input
order (empty list; more than 20 conditions; missing / non-string / empty
`field`; unknown operator; absent `value`; non-list `IN` / `NOT IN` value;
non-numeric `<` / `<=` / `>` / `>=` value).  The two closed conjuncts are the
claim's examples: a 21-condition list is rejected, and a `<` condition whose
value is not a real number is rejected. -/
theorem validateConditions_eq_validateSpec :
    (∀ cs : List RawCondition, validateConditions cs = validateSpec cs)
    ∧ validateConditions (List.replicate 21
        ⟨some (Json.str "f"), some (Json.str "="), some (Json.num 1)⟩) =
        some .tooManyConditions
    ∧ validateConditions [⟨some (Json.str "x"), some (Json.str "<"),
        some (Json.str "nope")⟩] = some (.numericRequiresNumber 0) := by
  refine ⟨?_, rfl, rfl⟩
  intro cs
  match cs with
  | [] => rfl
  | c :: t =>
    have h0 : ¬((c :: t).length = 0) := by simp
    have h1 : ¬((c :: t).isEmpty = true) := by simp
    unfold validateConditions validateSpec
    rw [if_neg h0, if_neg h1]
    by_cases h20 : (c :: t).length > 20
    · rw [if_pos h20, if_pos h20]
    · rw [if_neg h20, if_neg h20]
      exact validateLoop_eq (c :: t) 0

/-! ## The canonical payload (`buildProofPayload` of `proof-generator.ts`)

The source serializes the payload with
`JSON.stringify(payload, Object.keys(payload).sort())`.  Per ECMA-262, an
array passed as the second argument of `JSON.stringify` is a *property list*:
at **every** object depth only properties whose names occur in the list are
serialized, in the order of the list.  `stringifyW` embeds
`JSON.stringify(value, allowList)` (no space argument, so separators are `,`
and `:` without whitespace). -/

/-- Lower-case hexadecimal digit. -/
def hexDigit (n : Nat) : Char :=
  if n < 10 then Char.ofNat (48 + n) else Char.ofNat (87 + n)

/-- `QuoteJSONString` escaping of one character: the two mandatory escapes,
the short control escapes, and `\u00XX` for the remaining control
characters. -/
def escapeChar (ch : Char) : List Char :=
  if ch = '"' then ['\\', '"']
  else if ch = '\\' then ['\\', '\\']
  else if ch.toNat = 8 then ['\\', 'b']
  else if ch.toNat = 9 then ['\\', 't']
  else if ch.toNat = 10 then ['\\', 'n']
  else if ch.toNat = 12 then ['\\', 'f']
  else if ch.toNat = 13 then ['\\', 'r']
  else if ch.toNat < 32 then
    ['\\', 'u', '0', '0', hexDigit (ch.toNat / 16), hexDigit (ch.toNat % 16)]
  else [ch]

/-- JSON string quoting. -/
def quoteJson (s : String) : String :=
  "\"" ++ String.mk ((s.toList.map escapeChar).join) ++ "\""

/-- Comma-separated join. -/
def commaJoin (xs : List String) : String :=
  String.intercalate "," xs

/-- `SerializeJSONObject` with a property list `K = allow`: for each listed
key, in list order, the serialized member `"key":value` if the object has the
property and it serializes (function-valued members, serialized to `none` =
`undefined`, are omitted, as `JSON.stringify` omits them).  The object's
members are supplied already serialized (see `stringifyPairs`); serializing
each member and then selecting by the property list emits exactly the members
`JSON.stringify` emits, in the same order. -/
def selectStrs (allow : List String) (pairs : List (String × Option String)) :
    List String :=
  allow.filterMap (fun k =>
    match List.lookup k pairs with
    | some (some sv) => some (quoteJson k ++ ":" ++ sv)
    | _ => Option.none)

mutual

/-- `JSON.stringify(value, allowList)`: the property-list filter applies at
every object depth; array elements are always serialized.  `none` is
`undefined`: a function value (an inherited `Object.prototype` member read
into an evaluation result) does not serialize — it is dropped as an object
member and becomes `null` as an array element; the inherited `__proto__`
value is the plain object `Object.prototype`, serialized `\x7b\x7d`. -/
def stringifyW (allow : List String) : Json → Option String
  | .null => some "null"
  | .bool b => some (if b then "true" else "false")
  | .num n => some (toString n)
  | .str s => some (quoteJson s)
  | .protoMember name =>
    if name == "__proto__" then some "\x7b\x7d" else Option.none
  | .arr xs => some ("[" ++ commaJoin (stringifyList allow xs) ++ "]")
  | .obj kvs =>
    some ("\x7b" ++ commaJoin (selectStrs allow (stringifyPairs allow kvs)) ++ "\x7d")

/-- Array elements, each serialized; an unserializable element (`undefined`)
is emitted as `null`. -/
def stringifyList (allow : List String) : List Json → List String
  | [] => []
  | x :: xs =>
    (match stringifyW allow x with
     | some s => s
     | Option.none => "null") :: stringifyList allow xs

/-- Object members, keys kept, values serialized (or `none` = `undefined`). -/
def stringifyPairs (allow : List String) : List (String × Json) →
    List (String × Option String)
  | [] => []
  | (k, v) :: rest => (k, stringifyW allow v) :: stringifyPairs allow rest

end

/-- Lexicographic code-unit comparison of character lists (the comparison
JavaScript's default `sort` applies to strings). -/
def charsLe : List Char → List Char → Bool
  | [], _ => true
  | _ :: _, [] => false
  | a :: as, b :: bs =>
    if a.toNat < b.toNat then true
    else if b.toNat < a.toNat then false
    else charsLe as bs

/-- String comparison by code units. -/
def strLeB (s t : String) : Bool :=
  charsLe s.toList t.toList

/-- Insertion of a string into a sorted list (ascending code-point order). -/
def insertStr (s : String) : List String → List String
  | [] => [s]
  | t :: ts => if strLeB s t then s :: t :: ts else t :: insertStr s ts

/-- `Array.prototype.sort` on strings: ascending code-point order. -/
def sortStrs : List String → List String
  | [] => []
  | t :: ts => insertStr t (sortStrs ts)

/-- `Object.keys(payload)`: insertion order of the `ProofPayload` literal. -/
def payloadKeys : List String :=
  ["v", "agent", "rule", "conditions", "action", "eval", "met", "nonce", "ts"]

/-- A condition as it sits inside the payload. -/
def condToJson (c : Condition) : Json :=
  .obj [("field", .str c.field), ("op", .str (opToString c.op)), ("value", c.value)]

/-- An evaluation result as it sits inside the payload. -/
def evalResultToJson (r : EvalResult) : Json :=
  .obj [("field", .str r.field), ("op", .str r.op), ("expected", r.expected),
    ("actual", r.actual), ("pass", .bool r.pass)]

/-- The `ProofPayload` object literal of `buildProofPayload`, keys in
insertion order. -/
def payloadJson (agentId ruleId : String) (conds : List Condition)
    (actionData : List (String × Json)) (evalRs : List EvalResult)
    (ruleMet : Bool) (nonce ts : Int) : Json :=
  .obj [("v", .num 1), ("agent", .str agentId), ("rule", .str ruleId),
    ("conditions", .arr (conds.map condToJson)),
    ("action", .obj actionData),
    ("eval", .arr (evalRs.map evalResultToJson)),
    ("met", .bool ruleMet), ("nonce", .num nonce), ("ts", .num ts)]

/-- `buildProofPayload` of `proof-generator.ts`:
`JSON.stringify(payload, Object.keys(payload).sort())`.  The wall-clock
timestamp `Math.floor(Date.now() / 1000)` is taken as the parameter `ts`. -/
def buildProofPayload (agentId ruleId : String) (conds : List Condition)
    (actionData : List (String × Json)) (evalRs : List EvalResult)
    (ruleMet : Bool) (nonce ts : Int) : String :=
  (stringifyW (sortStrs payloadKeys)
    (payloadJson agentId ruleId conds actionData evalRs ruleMet nonce ts)).getD ""

/-- C1 (code bug): the replacer array of
`JSON.stringify(payload, Object.keys(payload).sort())` is a property
allowlist at every depth, so nested objects keep only keys named like the
top-level payload keys.  At the concrete input below — one condition
`{amount <= 5}`, action `{amount: 3}`, one evaluation result — the emitted
bytes serialize `conditions` and `eval` as `[{}]` and `action` as `{}`:
the condition's `field` / `op` / `value`, the evaluation result's five
members, and the action entry `"amount": 3` are all absent, contradicting
"the canonical payload contains every input exactly once".  (The top-level
keys are sorted ascending and the output is deterministic; it is the
every-input-appears property that the code violates.) -/
theorem buildProofPayload_drops_nested_inputs :
    buildProofPayload "a1" "r1" [⟨"amount", Op.leOp, Json.num 5⟩]
        [("amount", Json.num 3)] [⟨"amount", "<=", Json.num 5, Json.num 3, true⟩]
        true 1 1700000000
      = "\x7b\"action\":\x7b\x7d,\"agent\":\"a1\",\"conditions\":[\x7b\x7d],\"eval\":[\x7b\x7d],\"met\":true,\"nonce\":1,\"rule\":\"r1\",\"ts\":1700000000,\"v\":1\x7d"
    ∧ strContainsSub
        (buildProofPayload "a1" "r1" [⟨"amount", Op.leOp, Json.num 5⟩]
          [("amount", Json.num 3)] [⟨"amount", "<=", Json.num 5, Json.num 3, true⟩]
          true 1 1700000000) "amount" = false
    ∧ strContainsSub
        (buildProofPayload "a1" "r1" [⟨"amount", Op.leOp, Json.num 5⟩]
          [("amount", Json.num 3)] [⟨"amount", "<=", Json.num 5, Json.num 3, true⟩]
          true 1 1700000000) "field" = false
    ∧ strContainsSub
        (buildProofPayload "a1" "r1" [⟨"amount", Op.leOp, Json.num 5⟩]
          [("amount", Json.num 3)] [⟨"amount", "<=", Json.num 5, Json.num 3, true⟩]
          true 1 1700000000) "3" = false :=
  ⟨rfl, rfl, rfl, rfl⟩

/-! ## Merkle root (`computeMerkleRoot` of `batch-proofs.ts`)

Leaves are 32-byte digests, modelled as lists of naturals below 256.  The
source stores them as `0x`-prefixed lowercase hex strings, converts to bytes
before the loop, and compares pairs via `bytesToHex`; the embedding works on
the byte lists and keeps the source's hex-string comparison, which
`charsLe_hex_eq_bytesLeB` below proves equal to byte-wise comparison.
`keccak256` is imported from `ethereum-cryptography`; it enters the embedding
as the parameter `H` (a function from byte lists to 32-byte lists). -/

/-- `bytesToHex`: lowercase hex characters of a byte. -/
def byteToHexChars (b : Nat) : List Char :=
  [hexDigit (b / 16), hexDigit (b % 16)]

/-- `bytesToHex` of a byte list (without the `0x` prefix). -/
def bytesToHexStr (bs : List Nat) : String :=
  String.mk ((bs.map byteToHexChars).join)

/-- Are all entries bytes? -/
def allBytesB (bs : List Nat) : Bool :=
  bs.all (fun b => decide (b < 256))

/-- A well-formed 32-byte digest. -/
def validBytes32 (bs : List Nat) : Bool :=
  (bs.length == 32) && allBytesB bs

/-- Byte-wise lexicographic `≤` on byte lists (the specification's
"byte order"). -/
def bytesLeB : List Nat → List Nat → Bool
  | [], _ => true
  | _ :: _, [] => false
  | x :: xs, y :: ys =>
    if x < y then true
    else if y < x then false
    else bytesLeB xs ys

/-- The specification's interior combine: byte-wise smaller element first,
then the hash of the 64-byte concatenation. -/
def combineHash (H : List Nat → List Nat) (a b : List Nat) : List Nat :=
  if bytesLeB a b then H (a ++ b) else H (b ++ a)

/-- One pass of the `while` loop of `computeMerkleRoot`: combine pairs
(sorted by the source's hex-string comparison), promote an odd leftover
unchanged. -/
def combineLevel (H : List Nat → List Nat) : List (List Nat) → List (List Nat)
  | a :: b :: rest =>
    (if strLeB (bytesToHexStr a) (bytesToHexStr b) then H (a ++ b) else H (b ++ a))
      :: combineLevel H rest
  | [a] => [a]
  | [] => []

/-- Each pass at least halves the layer (rounding up). -/
theorem combineLevel_length (H : List Nat → List Nat) :
    ∀ l : List (List Nat), (combineLevel H l).length = (l.length + 1) / 2
  | [] => by simp [combineLevel]
  | [a] => by simp [combineLevel]
  | a :: b :: rest => by
    have ih := combineLevel_length H rest
    simp [combineLevel, ih]
    omega

/-- The `while (layer.length > 1)` loop: repeat `combineLevel` until a single
node remains.  (The empty case is unreachable — the source throws before the
loop.) -/
def merkleLoop (H : List Nat → List Nat) : List (List Nat) → List Nat
  | [] => []
  | [a] => a
  | a :: b :: rest => merkleLoop H (combineLevel H (a :: b :: rest))
termination_by l => l.length
decreasing_by
  have := combineLevel_length H (a :: b :: rest)
  simp at this ⊢
  omega

/-- `computeMerkleRoot` of `batch-proofs.ts`: `none` models the
`'No leaves'` exception; a single leaf is returned unchanged; otherwise the
loop runs to a single root. -/
def computeMerkleRoot (H : List Nat → List Nat) :
    List (List Nat) → Option (List Nat)
  | [] => none
  | [a] => some a
  | a :: b :: rest => some (merkleLoop H (a :: b :: rest))

/-- Hex digits compare like the values they encode. -/
theorem hexDigit_toNat_lt : ∀ m : Nat, m < 16 → ∀ n : Nat, n < 16 →
    (((hexDigit m).toNat < (hexDigit n).toNat) ↔ m < n) := by decide

/-- Prepending the two hex digits of a byte to each side turns the character
comparison into a byte comparison followed by the remaining comparison. -/
theorem charsLe_hexpair (x y : Nat) (hx : x < 256) (hy : y < 256)
    (r1 r2 : List Char) :
    charsLe (byteToHexChars x ++ r1) (byteToHexChars y ++ r2) =
      (if x < y then true else if y < x then false else charsLe r1 r2) := by
  have h1 : x / 16 < 16 := by omega
  have h2 : y / 16 < 16 := by omega
  have h3 : x % 16 < 16 := by omega
  have h4 : y % 16 < 16 := by omega
  simp only [byteToHexChars, List.cons_append, charsLe]
  by_cases hd1 : x / 16 < y / 16
  · rw [if_pos ((hexDigit_toNat_lt _ h1 _ h2).mpr hd1)]
    have hxy : x < y := by omega
    rw [if_pos hxy]
  · rw [if_neg (fun hc => absurd ((hexDigit_toNat_lt _ h1 _ h2).mp hc) hd1)]
    by_cases hd2 : y / 16 < x / 16
    · rw [if_pos ((hexDigit_toNat_lt _ h2 _ h1).mpr hd2)]
      have hxy : ¬ (x < y) := by omega
      have hyx : y < x := by omega
      rw [if_neg hxy, if_pos hyx]
    · rw [if_neg (fun hc => absurd ((hexDigit_toNat_lt _ h2 _ h1).mp hc) hd2)]
      by_cases hm1 : x % 16 < y % 16
      · rw [if_pos ((hexDigit_toNat_lt _ h3 _ h4).mpr hm1)]
        have hxy : x < y := by omega
        rw [if_pos hxy]
      · rw [if_neg (fun hc => absurd ((hexDigit_toNat_lt _ h3 _ h4).mp hc) hm1)]
        by_cases hm2 : y % 16 < x % 16
        · rw [if_pos ((hexDigit_toNat_lt _ h4 _ h3).mpr hm2)]
          have hxy : ¬ (x < y) := by omega
          have hyx : y < x := by omega
          rw [if_neg hxy, if_pos hyx]
        · rw [if_neg (fun hc => absurd ((hexDigit_toNat_lt _ h4 _ h3).mp hc) hm2)]
          have hxy : ¬ (x < y) := by omega
          have hyx : ¬ (y < x) := by omega
          rw [if_neg hxy, if_neg hyx]
          rfl

/-- The source's hex-string comparison of byte lists is exactly byte-wise
lexicographic comparison. -/
theorem strLeB_hex_eq_bytesLeB :
    ∀ a b : List Nat, allBytesB a = true → allBytesB b = true →
      strLeB (bytesToHexStr a) (bytesToHexStr b) = bytesLeB a b
  | [], b, _, _ => by
    cases b with
    | nil => rfl
    | cons y ys => rfl
  | x :: xs, [], _, _ => by
    show charsLe (byteToHexChars x ++ (xs.map byteToHexChars).join) [] = false
    cases hinner : byteToHexChars x ++ (xs.map byteToHexChars).join with
    | nil => simp [byteToHexChars] at hinner
    | cons c cs => rfl
  | x :: xs, y :: ys, ha, hb => by
    simp only [allBytesB, List.all_cons, Bool.and_eq_true, decide_eq_true_eq] at ha hb
    have ih := strLeB_hex_eq_bytesLeB xs ys (by simp [allBytesB, ha.2])
      (by simp [allBytesB, hb.2])
    show charsLe (byteToHexChars x ++ (xs.map byteToHexChars).join)
        (byteToHexChars y ++ (ys.map byteToHexChars).join) = _
    rw [charsLe_hexpair x y ha.1 hb.1]
    show _ = bytesLeB (x :: xs) (y :: ys)
    simp only [bytesLeB]
    rcases Nat.lt_trichotomy x y with h | h | h
    · rw [if_pos h, if_pos h]
    · subst h
      simp only [Nat.lt_irrefl, if_false, if_neg (Nat.lt_irrefl x)]
      exact ih
    · have hxy : ¬ (x < y) := by omega
      rw [if_neg hxy, if_pos h, if_neg hxy, if_pos h]

/-- A pair step of `combineLevel` is the specification's sorted combine. -/
theorem combineLevel_cons (H : List Nat → List Nat) (a b : List Nat)
    (rest : List (List Nat)) (ha : validBytes32 a = true) (hb : validBytes32 b = true) :
    combineLevel H (a :: b :: rest) = combineHash H a b :: combineLevel H rest := by
  simp only [validBytes32, Bool.and_eq_true] at ha hb
  simp only [combineLevel, combineHash,
    strLeB_hex_eq_bytesLeB a b ha.2 hb.2]

/-- C7: `computeMerkleRoot` returns a single leaf unchanged; at each level it
combines each pair with the byte-wise smaller element first under the hash of
the 64-byte concatenation, and promotes an odd leftover unchanged; and for
three well-formed leaves the root is `H(H(h1, h2), h3)` where `H(x, y)` is
the sort-then-concatenate-then-hash combine (`combineHash`).  `H` is the
imported `keccak256`, assumed (hypothesis `hH`) to return 32-byte digests. -/
theorem computeMerkleRoot_spec (H : List Nat → List Nat)
    (hH : ∀ x : List Nat, validBytes32 (H x) = true) :
    (∀ a : List Nat, computeMerkleRoot H [a] = some a)
    ∧ (∀ (a b : List Nat) (rest : List (List Nat)),
        validBytes32 a = true → validBytes32 b = true →
        combineLevel H (a :: b :: rest) = combineHash H a b :: combineLevel H rest)
    ∧ (∀ a : List Nat, combineLevel H [a] = [a])
    ∧ (∀ a b : List Nat, a.length = 32 → b.length = 32 →
        (if bytesLeB a b then a ++ b else b ++ a).length = 64)
    ∧ (∀ h1 h2 h3 : List Nat, validBytes32 h1 = true → validBytes32 h2 = true →
        validBytes32 h3 = true →
        computeMerkleRoot H [h1, h2, h3] =
          some (combineHash H (combineHash H h1 h2) h3)) := by
  have hcombine : ∀ a b : List Nat, validBytes32 (combineHash H a b) = true := by
    intro a b
    unfold combineHash
    by_cases h : bytesLeB a b = true
    · rw [if_pos h]; exact hH _
    · rw [if_neg h]; exact hH _
  refine ⟨fun a => rfl, combineLevel_cons H, fun a => rfl, ?_, ?_⟩
  · intro a b hla hlb
    by_cases h : bytesLeB a b = true
    · rw [if_pos h]; simp [hla, hlb]
    · rw [if_neg h]; simp [hla, hlb]
  · intro h1 h2 h3 hv1 hv2 hv3
    show some (merkleLoop H [h1, h2, h3]) = _
    rw [merkleLoop, combineLevel_cons H h1 h2 [h3] hv1 hv2]
    show some (merkleLoop H [combineHash H h1 h2, h3]) = _
    rw [merkleLoop, combineLevel_cons H _ h3 [] (hcombine h1 h2) hv3]
    show some (merkleLoop H [combineHash H (combineHash H h1 h2) h3]) = _
    rw [merkleLoop]

/-- C7 witness: the theorem applied to a concrete hash function and three
concrete ordered 32-byte leaves, all hypotheses discharged by computation. -/
theorem computeMerkleRoot_spec_witness :
    computeMerkleRoot (fun _ => List.replicate 32 0)
        [List.replicate 32 0, List.replicate 32 1, List.replicate 32 2] =
      some (combineHash (fun _ => List.replicate 32 0)
        (combineHash (fun _ => List.replicate 32 0)
          (List.replicate 32 0) (List.replicate 32 1))
        (List.replicate 32 2))
    ∧ computeMerkleRoot (fun _ => List.replicate 32 0) [List.replicate 32 7] =
        some (List.replicate 32 7) :=
  ⟨(computeMerkleRoot_spec (fun _ => List.replicate 32 0) (fun _ => rfl)).2.2.2.2
      (List.replicate 32 0) (List.replicate 32 1) (List.replicate 32 2)
      (by decide) (by decide) (by decide),
   (computeMerkleRoot_spec (fun _ => List.replicate 32 0) (fun _ => rfl)).1
      (List.replicate 32 7)⟩

/-! ## The issue-attestation coordinator (`POST /api/prove`)

State-machine embedding of `prove.ts` over an abstract relational store:
the four tables the route touches, one row type each (columns the route never
reads or writes — timestamps, api-key hashes, the float `proof_cost`, the
ECDSA/AES artifacts `signature_encrypted` — are omitted).  The
`requireApiKey` middleware (agent lookup by key, suspension check, user
lookup) is part of the embedding, with the API key resolution abstracted to
the agent id it resolves to.  `generateProof`'s output digest enters as the
parameter `gen` (hash of the canonical payload; signing and encryption do not
influence control flow beyond being able to throw, which fault injection
covers).  The `transaction` helper of `db.ts` (`BEGIN` / `COMMIT` on success,
`ROLLBACK` and rethrow on any error) is modelled by running the atomic
section on the current store and discarding its writes when it fails:
`Option.none` models a thrown error.  `Fault` injects a failure at each
fallible step of the atomic section (the sequence-counter `UPDATE`, proof
generation, the `INSERT`, the usage `UPDATE`); the digest-uniqueness
constraint (`proofs.proof_hash UNIQUE`) is checked genuinely. -/

/-- The `users` columns the route reads and writes. -/
structure UserRow where
  id : String
  tier : String
  used_proofs_this_month : Nat

/-- The `agents` columns the route reads and writes. -/
structure AgentRow where
  id : String
  user_id : String
  status : String
  proof_nonce : Nat

/-- The `rules` columns the route reads. -/
structure RuleRow where
  id : String
  agent_id : String
  status : String
  conditions : List Condition

/-- The `proofs` columns the route writes (minus the omitted artifacts). -/
structure ProofRow where
  agent_id : String
  rule_id : String
  nonce : Nat
  proof_hash : String
  rule_met : Bool
  decision_summary : String
deriving DecidableEq

/-- The relational store. -/
structure DB where
  users : List UserRow
  agents : List AgentRow
  rules : List RuleRow
  proofs : List ProofRow

/-- The error outcomes of the route (middleware included). -/
inductive ApiErr where
  | authFailed          -- 401 AUTH_INVALID_KEY (agent or user row missing)
  | agentSuspended      -- 403 AGENT_SUSPENDED
  | internalInvalidTier -- 500 'Invalid tier'
  | quotaExceeded       -- 402 QUOTA_EXCEEDED
  | ruleNotFound        -- 404 RULE_NOT_FOUND
  | ruleMismatch        -- 403 RULE_MISMATCH
  | ruleArchived        -- 403 RULE_ARCHIVED
  | ruleCorrupt         -- 500 RULE_CORRUPT
  | txAborted           -- 500: any error thrown inside the transaction
deriving DecidableEq

/-- Fault injection for the fallible steps of the atomic section. -/
inductive Fault where
  | none | atNonceUpdate | atGenerate | atInsert | atUsage
deriving DecidableEq

/-- `TIERS` of `tiers.ts`, restricted to the field the route's quota check
reads (`monthly_limit`); the pricing fields are not modelled. -/
def tierMonthlyLimit : String → Option Nat
  | "free" => some 10
  | "starter" => some 1000
  | "growth" => some 10000
  | "enterprise" => some 100000
  | _ => Option.none

/-- The outcome of `POST /api/prove`: 201 with the created row, or an
error. -/
inductive ProveResult where
  | ok (p : ProofRow)
  | err (e : ApiErr)
deriving DecidableEq

/-- One issue request: the agent the API key resolves to, the body, and the
injected fault. -/
structure ProveRequest where
  agentId : String
  rule_id : String
  action_data : List (String × Json)
  fault : Fault

/-- The `generateProof` digest pipeline as a parameter (agent id, rule id,
conditions, action record, evaluation, met, nonce ↦ proof hash). -/
def GenHash : Type :=
  String → String → List Condition → List (String × Json) → List EvalResult →
    Bool → Nat → String

/-- `SELECT ... FROM agents WHERE ...` resolving to one agent. -/
def findAgent (db : DB) (aid : String) : Option AgentRow :=
  db.agents.find? (fun a => a.id == aid)

/-- `SELECT ... FROM users WHERE id = $1`. -/
def findUser (db : DB) (uid : String) : Option UserRow :=
  db.users.find? (fun u => u.id == uid)

/-- `SELECT ... FROM rules WHERE id = $1`. -/
def findRule (db : DB) (rid : String) : Option RuleRow :=
  db.rules.find? (fun r => r.id == rid)

/-- `UPDATE agents SET proof_nonce = proof_nonce + 1 WHERE id = $1`. -/
def updateAgentNonce (db : DB) (aid : String) : DB :=
  { db with agents := db.agents.map (fun a =>
      if a.id == aid then { a with proof_nonce := a.proof_nonce + 1 } else a) }

/-- `UPDATE users SET used_proofs_this_month = used_proofs_this_month + 1
WHERE id = $1`. -/
def incUserUsed (db : DB) (uid : String) : DB :=
  { db with users := db.users.map (fun u =>
      if u.id == uid then { u with used_proofs_this_month := u.used_proofs_this_month + 1 }
      else u) }

/-- `INSERT INTO proofs ...`. -/
def insertProof (db : DB) (p : ProofRow) : DB :=
  { db with proofs := db.proofs ++ [p] }

/-- A stored condition's raw JSON shape, as `validateConditions` re-reads it
from the `rules.conditions` JSONB column. -/
def condToRaw (c : Condition) : RawCondition :=
  ⟨some (Json.str c.field), some (Json.str (opToString c.op)), some c.value⟩

/-- The body of the `transaction(async (client) => ...)` block of the route:
sequence-counter increment with read-back, proof generation, proof insertion
(aborting on a digest collision, per the `proof_hash UNIQUE` constraint), and
the usage-counter increment.  `Option.none` models a thrown error, which the
`transaction` helper turns into a rollback. -/
def runAtomic (gen : GenHash) (req : ProveRequest) (user : UserRow)
    (agent : AgentRow) (rule : RuleRow) (ruleEval : RuleEvaluation) (db : DB) :
    Option (DB × ProofRow) :=
  if req.fault == Fault.atNonceUpdate then Option.none
  else
    match findAgent db agent.id with
    | Option.none => Option.none
    | some arow =>
      let nonce := arow.proof_nonce + 1
      let db1 := updateAgentNonce db agent.id
      if req.fault == Fault.atGenerate then Option.none
      else
        let h := gen agent.id rule.id rule.conditions req.action_data
          ruleEval.evaluation ruleEval.rule_met nonce
        if req.fault == Fault.atInsert || db1.proofs.any (fun p => p.proof_hash == h) then
          Option.none
        else
          let prow : ProofRow :=
            ⟨agent.id, rule.id, nonce, h, ruleEval.rule_met, ruleEval.summary⟩
          let db2 := insertProof db1 prow
          if req.fault == Fault.atUsage then Option.none
          else some (incUserUsed db2 user.id, prow)

/-- `POST /api/prove`: the `requireApiKey` middleware, the precondition
chain of `prove.ts` in source order (quota, rule lookup, ownership, state,
revalidation), evaluation, then the transaction with rollback-on-error. -/
def proveIssue (gen : GenHash) (req : ProveRequest) (db : DB) : ProveResult × DB :=
  match findAgent db req.agentId with
  | Option.none => (.err .authFailed, db)
  | some agent =>
    if !(agent.status == "active") then (.err .agentSuspended, db)
    else
      match findUser db agent.user_id with
      | Option.none => (.err .authFailed, db)
      | some user =>
        match tierMonthlyLimit user.tier with
        | Option.none => (.err .internalInvalidTier, db)
        | some monthly_limit =>
          if user.tier == "free" && decide (user.used_proofs_this_month ≥ monthly_limit) then
            (.err .quotaExceeded, db)
          else
            match findRule db req.rule_id with
            | Option.none => (.err .ruleNotFound, db)
            | some rule =>
              if !(rule.agent_id == agent.id) then (.err .ruleMismatch, db)
              else if !(rule.status == "active") then (.err .ruleArchived, db)
              else
                match validateConditions (rule.conditions.map condToRaw) with
                | some _ => (.err .ruleCorrupt, db)
                | Option.none =>
                  match runAtomic gen req user agent rule
                      (evaluateRule rule.conditions req.action_data) db with
                  | Option.none => (.err .txAborted, db)
                  | some (db2, prow) => (.ok prow, db2)

/-- Every outcome of the route either leaves the store untouched or is a 201
success: every error path — middleware, precondition chain, or transaction
rollback — returns the incoming store. -/
theorem proveIssue_state (gen : GenHash) (req : ProveRequest) (db : DB) :
    (proveIssue gen req db).2 = db ∨ ∃ p, (proveIssue gen req db).1 = .ok p := by
  unfold proveIssue
  repeat' split
  all_goals first
    | (left; rfl)
    | (right; exact ⟨_, rfl⟩)

/-- With any injected fault, the atomic section throws. -/
theorem runAtomic_fault (gen : GenHash) (req : ProveRequest)
    (hf : req.fault ≠ Fault.none) (user : UserRow) (agent : AgentRow)
    (rule : RuleRow) (ev : RuleEvaluation) (db : DB) :
    runAtomic gen req user agent rule ev db = Option.none := by
  unfold runAtomic
  cases hc : req.fault with
  | none => exact absurd hc hf
  | atNonceUpdate => simp [hc]
  | atGenerate =>
    simp only [hc]
    cases findAgent db agent.id <;> simp
  | atInsert =>
    simp only [hc]
    cases findAgent db agent.id <;> simp
  | atUsage =>
    simp only [hc]
    cases findAgent db agent.id <;> simp

/-- C4: if any step inside the atomic section fails — the sequence-counter
update, proof generation (hashing / signing / encryption), the proof
insertion (including a digest-uniqueness collision), or the usage-counter
increment — nothing persists: every error outcome returns the incoming store
unchanged (no proof row, sequence counter not consumed, monthly usage not
incremented), and any injected fault yields an error outcome with the store
unchanged. -/
theorem proveIssue_atomicity (gen : GenHash) (req : ProveRequest) (db : DB) :
    (∀ e : ApiErr, (proveIssue gen req db).1 = .err e → (proveIssue gen req db).2 = db)
    ∧ (req.fault ≠ Fault.none →
        (∃ e : ApiErr, (proveIssue gen req db).1 = .err e)
        ∧ (proveIssue gen req db).2 = db) := by
  have hok : req.fault ≠ Fault.none → ∀ p, (proveIssue gen req db).1 ≠ .ok p := by
    intro hf p hp
    unfold proveIssue at hp
    repeat' split at hp
    all_goals try simp at hp
    rename_i heq
    rw [runAtomic_fault gen req hf] at heq
    cases heq
  constructor
  · intro e he
    rcases proveIssue_state gen req db with h | ⟨p, hp⟩
    · exact h
    · rw [hp] at he; cases he
  · intro hf
    constructor
    · cases hres : (proveIssue gen req db).1 with
      | ok p => exact absurd hres (hok hf p)
      | err e => exact ⟨e, rfl⟩
    · rcases proveIssue_state gen req db with h | ⟨p, hp⟩
      · exact h
      · exact absurd hp (hok hf p)

/-- A constant digest pipeline, standing in for `generateProof` in concrete
runs. -/
def genConst : GenHash := fun _ _ _ _ _ _ _ => "h"

/-- A store with one free-tier principal, one active agent and one active
one-condition rule. -/
def demoDB : DB :=
  ⟨[⟨"u1", "free", 0⟩], [⟨"a1", "u1", "active", 0⟩],
    [⟨"r1", "a1", "active", [⟨"x", Op.eqOp, Json.num 1⟩]⟩], []⟩

/-- C4 witness: a usage-step fault on a store that would otherwise succeed
yields an error and leaves the store unchanged, and a digest collision
(stored proof with the same hash) aborts with the store unchanged. -/
theorem proveIssue_atomicity_witness :
    (proveIssue genConst ⟨"a1", "r1", [("x", Json.num 1)], .atUsage⟩ demoDB).2 = demoDB
    ∧ (proveIssue genConst ⟨"a1", "r1", [("x", Json.num 1)], .none⟩
        ⟨demoDB.users, demoDB.agents, demoDB.rules,
          [⟨"a1", "r1", 5, "h", true, "s"⟩]⟩).2 =
      ⟨demoDB.users, demoDB.agents, demoDB.rules, [⟨"a1", "r1", 5, "h", true, "s"⟩]⟩ :=
  ⟨((proveIssue_atomicity genConst ⟨"a1", "r1", [("x", Json.num 1)], .atUsage⟩ demoDB).2
      (by intro h; cases h)).2,
   (proveIssue_atomicity genConst ⟨"a1", "r1", [("x", Json.num 1)], .none⟩
      ⟨demoDB.users, demoDB.agents, demoDB.rules, [⟨"a1", "r1", 5, "h", true, "s"⟩]⟩).1
      .txAborted rfl⟩

/-- C2 counterexample: a starter-tier principal whose monthly counter has
reached the starter limit (1000) issues successfully — the route's quota
check reads `user.tier === 'free' && used >= limit`, so no paid tier is ever
quota-blocked.  The operation returns 201, inserts a proof row, and advances
the agent's sequence counter, contradicting the claim for every non-free
tier. -/
theorem paid_tier_quota_counterexample :
    (proveIssue genConst ⟨"a1", "r1", [("x", Json.num 1)], .none⟩
        ⟨[⟨"u1", "starter", 1000⟩], [⟨"a1", "u1", "active", 0⟩],
          [⟨"r1", "a1", "active", [⟨"x", Op.eqOp, Json.num 1⟩]⟩], []⟩).1 =
      .ok ⟨"a1", "r1", 1, "h", true, "All 1 condition passed"⟩
    ∧ (proveIssue genConst ⟨"a1", "r1", [("x", Json.num 1)], .none⟩
        ⟨[⟨"u1", "starter", 1000⟩], [⟨"a1", "u1", "active", 0⟩],
          [⟨"r1", "a1", "active", [⟨"x", Op.eqOp, Json.num 1⟩]⟩], []⟩).2.proofs =
      [⟨"a1", "r1", 1, "h", true, "All 1 condition passed"⟩]
    ∧ (proveIssue genConst ⟨"a1", "r1", [("x", Json.num 1)], .none⟩
        ⟨[⟨"u1", "starter", 1000⟩], [⟨"a1", "u1", "active", 0⟩],
          [⟨"r1", "a1", "active", [⟨"x", Op.eqOp, Json.num 1⟩]⟩], []⟩).2.agents =
      [⟨"a1", "u1", "active", 1⟩] :=
  ⟨rfl, rfl, rfl⟩

/-- C2 (amended): the quota wall holds for the free tier: whenever the
caller's agent resolves to a free-tier principal whose monthly counter has
reached the free monthly limit (10), the issue operation fails with
*quota exceeded* and the store is unchanged — no proof row, no sequence
advance.  (Paid tiers are not quota-blocked; see the counterexample.) -/
theorem free_tier_quota_wall (gen : GenHash) (req : ProveRequest) (db : DB)
    (agent : AgentRow) (user : UserRow)
    (hagent : findAgent db req.agentId = some agent)
    (hactive : agent.status = "active")
    (huser : findUser db agent.user_id = some user)
    (htier : user.tier = "free")
    (hused : user.used_proofs_this_month ≥ 10) :
    proveIssue gen req db = (.err .quotaExceeded, db) := by
  have hstatus : (!(agent.status == "active")) = false := by
    rw [hactive]; rfl
  unfold proveIssue
  rw [hagent]
  dsimp only
  rw [hstatus]
  simp only [Bool.false_eq_true, if_false]
  rw [huser]
  dsimp only
  rw [htier]
  rw [show tierMonthlyLimit "free" = some 10 from rfl]
  dsimp only
  simp [hused]

/-- C2 witness: a concrete free-tier principal at 10/10 is refused with
*quota exceeded* and the store is unchanged. -/
theorem free_tier_quota_wall_witness :
    proveIssue genConst ⟨"a1", "r1", [("x", Json.num 1)], .none⟩
        ⟨[⟨"u1", "free", 10⟩], [⟨"a1", "u1", "active", 0⟩],
          [⟨"r1", "a1", "active", [⟨"x", Op.eqOp, Json.num 1⟩]⟩], []⟩ =
      (.err .quotaExceeded,
        ⟨[⟨"u1", "free", 10⟩], [⟨"a1", "u1", "active", 0⟩],
          [⟨"r1", "a1", "active", [⟨"x", Op.eqOp, Json.num 1⟩]⟩], []⟩) :=
  free_tier_quota_wall genConst ⟨"a1", "r1", [("x", Json.num 1)], .none⟩
    ⟨[⟨"u1", "free", 10⟩], [⟨"a1", "u1", "active", 0⟩],
      [⟨"r1", "a1", "active", [⟨"x", Op.eqOp, Json.num 1⟩]⟩], []⟩
    ⟨"a1", "u1", "active", 0⟩ ⟨"u1", "free", 10⟩ rfl rfl rfl rfl (by decide)

/-! ## Sequence-counter contiguity (C3) -/

/-- The stored rows of one agent (by the `agents` primary key). -/
def agentRows (aid : String) (db : DB) : List AgentRow :=
  db.agents.filter (fun a => a.id == aid)

/-- The persisted nonces of one agent's proofs, in insertion order. -/
def agentProofNonces (aid : String) (db : DB) : List Nat :=
  (db.proofs.filter (fun p => p.agent_id == aid)).map (fun p => p.nonce)

/-- Run a sequence of issue requests; return the final store and the number
of successful (201) operations. -/
def runIssues (gen : GenHash) : List ProveRequest → DB → DB × Nat
  | [], db => (db, 0)
  | r :: rs, db =>
    match proveIssue gen r db with
    | (.ok _, db1) => ((runIssues gen rs db1).1, (runIssues gen rs db1).2 + 1)
    | (.err _, db1) => runIssues gen rs db1

theorem find?_of_filter_singleton {α : Type} (p : α → Bool) (x : α) :
    ∀ l : List α, l.filter p = [x] → l.find? p = some x := by
  intro l
  induction l with
  | nil => intro h; cases h
  | cons a t ih =>
    intro h
    by_cases hp : p a = true
    · rw [List.filter_cons_of_pos hp] at h
      injection h with h1 h2
      rw [List.find?_cons_of_pos _ hp, h1]
    · rw [List.filter_cons_of_neg (by simp [hp])] at h
      rw [List.find?_cons_of_neg _ (by simp [hp])]
      exact ih h

/-- The sequence-counter `UPDATE` bumps exactly the agent's stored rows. -/
theorem agentRows_updateAgentNonce (aid : String) (db : DB) :
    agentRows aid (updateAgentNonce db aid) =
      (agentRows aid db).map (fun a => { a with proof_nonce := a.proof_nonce + 1 }) := by
  rcases db with ⟨us, ags, rls, prs⟩
  unfold agentRows updateAgentNonce
  dsimp only
  induction ags with
  | nil => rfl
  | cons a t ih =>
    by_cases h : (a.id == aid) = true
    · simp only [List.map_cons, List.filter_cons, h, if_pos, ih]
    · simp only [List.map_cons, List.filter_cons, h, Bool.false_eq_true, if_neg, ih]
      simp [h]

/-- The proof `INSERT` appends exactly one nonce for the proof's agent. -/
theorem agentProofNonces_insertProof (aid : String) (db : DB) (p : ProofRow)
    (hp : p.agent_id = aid) :
    agentProofNonces aid (insertProof db p) = agentProofNonces aid db ++ [p.nonce] := by
  unfold agentProofNonces insertProof
  dsimp only
  rw [List.filter_append, List.map_append]
  simp [hp]

/-- Success anatomy of the route: a 201 outcome resolves the caller's agent,
reads its current counter `n` inside the transaction, and produces the
post-transaction store with the counter at `n + 1`, the proof row carrying
nonce `n + 1` appended, and the principal's usage bumped. -/
theorem proveIssue_ok_shape (gen : GenHash) (r : ProveRequest) (db : DB)
    (p : ProofRow) (db1 : DB) (h : proveIssue gen r db = (.ok p, db1)) :
    ∃ (agent arow : AgentRow) (uid : String),
      findAgent db r.agentId = some agent ∧
      agent.id = r.agentId ∧
      findAgent db agent.id = some arow ∧
      p.agent_id = agent.id ∧
      p.nonce = arow.proof_nonce + 1 ∧
      db1 = incUserUsed (insertProof (updateAgentNonce db agent.id) p) uid := by
  unfold proveIssue at h
  rcases h1 : findAgent db r.agentId with _ | agent
  · rw [h1] at h
    simp at h
  rw [h1] at h
  dsimp only at h
  by_cases h2 : (!(agent.status == "active")) = true
  · simp [h2] at h
  rw [if_neg h2] at h
  rcases h3 : findUser db agent.user_id with _ | user
  · rw [h3] at h
    simp at h
  rw [h3] at h
  dsimp only at h
  rcases h4 : tierMonthlyLimit user.tier with _ | ml
  · rw [h4] at h
    simp at h
  rw [h4] at h
  dsimp only at h
  by_cases h5 : ((user.tier == "free") && decide (user.used_proofs_this_month ≥ ml)) = true
  · simp [h5] at h
  rw [if_neg h5] at h
  rcases h6 : findRule db r.rule_id with _ | rule
  · rw [h6] at h
    simp at h
  rw [h6] at h
  dsimp only at h
  by_cases h7 : (!(rule.agent_id == agent.id)) = true
  · simp [h7] at h
  rw [if_neg h7] at h
  by_cases h8 : (!(rule.status == "active")) = true
  · simp [h8] at h
  rw [if_neg h8] at h
  rcases h9 : validateConditions (rule.conditions.map condToRaw) with _ | viol
  swap
  · rw [h9] at h
    simp at h
  rw [h9] at h
  dsimp only at h
  rcases h10 : runAtomic gen r user agent rule
      (evaluateRule rule.conditions r.action_data) db with _ | ⟨db2, prow⟩
  · rw [h10] at h
    simp at h
  rw [h10] at h
  dsimp only at h
  have hpe : prow = p ∧ db2 = db1 := by
    constructor
    · injection h with ha hb
      injection ha
    · injection h with ha hb
  rcases hpe with ⟨hprow, hdb2⟩
  have hid : agent.id = r.agentId := by
    have := List.find?_some h1
    simp only at this
    exact eq_of_beq this
  unfold runAtomic at h10
  by_cases f1 : (r.fault == Fault.atNonceUpdate) = true
  · simp [f1] at h10
  rw [if_neg f1] at h10
  rcases g1 : findAgent db agent.id with _ | arow
  · rw [g1] at h10
    simp at h10
  rw [g1] at h10
  dsimp only at h10
  by_cases f2 : (r.fault == Fault.atGenerate) = true
  · simp [f2] at h10
  rw [if_neg f2] at h10
  by_cases f3 : ((r.fault == Fault.atInsert) ||
      (updateAgentNonce db agent.id).proofs.any (fun q =>
        q.proof_hash == gen agent.id rule.id rule.conditions r.action_data
          (evaluateRule rule.conditions r.action_data).evaluation
          (evaluateRule rule.conditions r.action_data).rule_met
          (arow.proof_nonce + 1))) = true
  · simp only [f3, if_pos] at h10
    cases h10
  rw [if_neg f3] at h10
  by_cases f4 : (r.fault == Fault.atUsage) = true
  · simp [f4] at h10
  rw [if_neg f4] at h10
  injection h10 with h10'
  have hpair := Prod.mk.injEq .. ▸ h10'
  rw [Prod.mk.injEq] at h10'
  rcases h10' with ⟨hdbx, hprowx⟩
  refine ⟨agent, arow, user.id, rfl, hid, g1, ?_, ?_, ?_⟩
  · rw [← hprow, ← hprowx]
  · rw [← hprow, ← hprowx]
  · rw [← hdb2, ← hdbx, ← hprow, ← hprowx]

theorem range'_one_concat (n : Nat) :
    List.range' 1 n ++ [n + 1] = List.range' 1 (n + 1) := by
  rw [List.range'_concat]
  congr 2
  omega

/-- The run-level invariant behind C3: starting from a store where the agent
has counter `n` and persisted nonces exactly `1..n`, any sequence of issue
requests for that agent ends with counter `n + k` and nonces exactly
`1..(n+k)`, `k` being the number of successful operations. -/
theorem runIssues_inv (gen : GenHash) (aid : String) :
    ∀ (reqs : List ProveRequest) (db : DB) (n : Nat),
      (∀ r ∈ reqs, r.agentId = aid) →
      (∃ uid st, agentRows aid db = [⟨aid, uid, st, n⟩]) →
      agentProofNonces aid db = List.range' 1 n →
      agentProofNonces aid (runIssues gen reqs db).1 =
        List.range' 1 (n + (runIssues gen reqs db).2)
      ∧ ∃ uid2 st2, agentRows aid (runIssues gen reqs db).1 =
          [⟨aid, uid2, st2, n + (runIssues gen reqs db).2⟩] := by
  intro reqs
  induction reqs with
  | nil =>
    intro db n _ hrow hn
    simpa [runIssues] using ⟨hn, hrow⟩
  | cons r rs ih =>
    intro db n hall hrow hn
    rcases hpi : proveIssue gen r db with ⟨res, db1⟩
    cases res with
    | err e =>
      have hdb1 : db1 = db := by
        rcases proveIssue_state gen r db with hst | ⟨p, hok⟩
        · rw [hpi] at hst
          exact hst
        · rw [hpi] at hok
          simp at hok
      have hstep : runIssues gen (r :: rs) db = runIssues gen rs db1 := by
        show (match proveIssue gen r db with
          | (.ok _, db1) => ((runIssues gen rs db1).1, (runIssues gen rs db1).2 + 1)
          | (.err _, db1) => runIssues gen rs db1) = _
        rw [hpi]
      rw [hstep, hdb1]
      exact ih db n (fun r' hr' => hall r' (List.mem_cons_of_mem _ hr')) hrow hn
    | ok p =>
      rcases proveIssue_ok_shape gen r db p db1 hpi with
        ⟨agent, arow, uid, hfind, hid, hfind2, hpagent, hpnonce, hdb1⟩
      have haid : agent.id = aid := by
        rw [hid]
        exact hall r (List.mem_cons_self r rs)
      rcases hrow with ⟨uid0, st0, hrow⟩
      have hfound : findAgent db aid = some ⟨aid, uid0, st0, n⟩ :=
        find?_of_filter_singleton _ _ db.agents hrow
      have harow : arow = ⟨aid, uid0, st0, n⟩ := by
        rw [haid, hfound] at hfind2
        injection hfind2 with h'
        exact h'.symm
      have hrow1 : ∃ u2 s2, agentRows aid db1 = [⟨aid, u2, s2, n + 1⟩] := by
        refine ⟨uid0, st0, ?_⟩
        rw [hdb1]
        have e1 : agentRows aid (incUserUsed (insertProof (updateAgentNonce db agent.id) p) uid)
            = agentRows aid (updateAgentNonce db agent.id) := rfl
        rw [e1, haid, agentRows_updateAgentNonce, hrow]
        rfl
      have hn1 : agentProofNonces aid db1 = List.range' 1 (n + 1) := by
        rw [hdb1]
        have e2 : agentProofNonces aid
              (incUserUsed (insertProof (updateAgentNonce db agent.id) p) uid)
            = agentProofNonces aid (insertProof (updateAgentNonce db agent.id) p) := rfl
        rw [e2, agentProofNonces_insertProof aid _ p (by rw [hpagent, haid])]
        have e3 : agentProofNonces aid (updateAgentNonce db agent.id)
            = agentProofNonces aid db := rfl
        rw [e3, hn, hpnonce, harow]
        exact range'_one_concat n
      have hstep : runIssues gen (r :: rs) db
          = ((runIssues gen rs db1).1, (runIssues gen rs db1).2 + 1) := by
        show (match proveIssue gen r db with
          | (.ok _, db1) => ((runIssues gen rs db1).1, (runIssues gen rs db1).2 + 1)
          | (.err _, db1) => runIssues gen rs db1) = _
        rw [hpi]
      rw [hstep]
      dsimp only
      rcases ih db1 (n + 1) (fun r' hr' => hall r' (List.mem_cons_of_mem _ hr')) hrow1 hn1
        with ⟨ha, hb⟩
      constructor
      · rw [ha]
        congr 1
        omega
      · rcases hb with ⟨u2, s2, hb⟩
        refine ⟨u2, s2, ?_⟩
        rw [show n + ((runIssues gen rs db1).2 + 1) = n + 1 + (runIssues gen rs db1).2 by omega]
        exact hb

/-- C3: starting from a freshly created agent (counter 0, no proofs), after
any sequence of issue requests for that agent with `k` successful (201)
operations, the persisted nonces of the agent's proofs are exactly the list
`[1, 2, ..., k]` — contiguous from 1, no duplicates, no gaps — and the
agent's `proof_nonce` counter equals `k`. -/
theorem issue_nonces_contiguous (gen : GenHash) (aid : String)
    (reqs : List ProveRequest) (db0 : DB) (uid st : String)
    (hreqs : ∀ r ∈ reqs, r.agentId = aid)
    (hagent : agentRows aid db0 = [⟨aid, uid, st, 0⟩])
    (hproofs : agentProofNonces aid db0 = []) :
    agentProofNonces aid (runIssues gen reqs db0).1 =
      List.range' 1 (runIssues gen reqs db0).2
    ∧ ∃ uid2 st2, agentRows aid (runIssues gen reqs db0).1 =
        [⟨aid, uid2, st2, (runIssues gen reqs db0).2⟩] := by
  have := runIssues_inv gen aid reqs db0 0 hreqs ⟨uid, st, hagent⟩ (by simpa using hproofs)
  simpa using this

/-- C3 witness: three requests for one fresh agent — two succeeding and one
failing in the middle (insert fault) — leave nonces `[1, 2]` and counter 2. -/
theorem issue_nonces_contiguous_witness :
    agentProofNonces "a1" (runIssues genConst
      [⟨"a1", "r1", [("x", Json.num 1)], .none⟩,
       ⟨"a1", "r1", [("x", Json.num 1)], .atInsert⟩,
       ⟨"a1", "r1", [("x", Json.num 2)], .none⟩] demoDB).1 =
      List.range' 1 (runIssues genConst
        [⟨"a1", "r1", [("x", Json.num 1)], .none⟩,
         ⟨"a1", "r1", [("x", Json.num 1)], .atInsert⟩,
         ⟨"a1", "r1", [("x", Json.num 2)], .none⟩] demoDB).2 :=
  (issue_nonces_contiguous genConst "a1"
    [⟨"a1", "r1", [("x", Json.num 1)], .none⟩,
     ⟨"a1", "r1", [("x", Json.num 1)], .atInsert⟩,
     ⟨"a1", "r1", [("x", Json.num 2)], .none⟩] demoDB "u1" "active"
    (by intro r hr
        simp only [List.mem_cons] at hr
        rcases hr with h | h | h | h
        · rw [h]
        · rw [h]
        · rw [h]
        · cases h)
    rfl rfl).1

/-! ## The envelope cipher (`encrypt` / `decrypt` of `proof-generator.ts`)

The source frames AES-256-GCM output as `hex(iv):hex(tag):hex(ciphertext)`
and delegates the cipher itself to `node:crypto`
(`createCipheriv('aes-256-gcm', ...)`).  The embedding models the GCM mode of
operation (NIST SP 800-38D: CTR encryption, GHASH over GF(2^128), tag
`E(J0) ⊕ GHASH(C)`) explicitly, with the AES-256 block permutation under the
loaded key entering as the parameter `E` (a function from 16-byte blocks to
16-byte blocks); both directions of GCM use only the forward block cipher.
Strings are modelled as character lists; plaintexts as byte lists (the
source's `utf8` conversions are a bijection between the two).  128-bit
blocks are big-endian naturals. -/

/-- Node `Buffer.from(s, 'hex')` digit: `0-9`, `a-f`, `A-F`. -/
def hexVal (c : Char) : Option Nat :=
  let n := c.toNat
  if 48 ≤ n ∧ n ≤ 57 then some (n - 48)
  else if 97 ≤ n ∧ n ≤ 102 then some (n - 87)
  else if 65 ≤ n ∧ n ≤ 70 then some (n - 55)
  else Option.none

/-- Node hex decoding: consume complete pairs, stop at the first invalid
pair (or odd tail), returning the bytes decoded so far. -/
def hexDecode : List Char → List Nat
  | c1 :: c2 :: rest =>
    match hexVal c1, hexVal c2 with
    | some hi, some lo => (16 * hi + lo) :: hexDecode rest
    | _, _ => []
  | _ => []

/-- Lowercase hex rendering of a byte list (`Buffer.prototype.toString('hex')`),
as characters. -/
def toHexChars (bs : List Nat) : List Char :=
  (bs.map byteToHexChars).join

/-- `String.prototype.split(':')`. -/
def splitColon : List Char → List (List Char)
  | [] => [[]]
  | c :: rest =>
    if c = ':' then [] :: splitColon rest
    else
      match splitColon rest with
      | [] => [[c]]
      | p :: ps => (c :: p) :: ps

/-- Number of `':'` characters. -/
def countColon (s : List Char) : Nat :=
  (s.filter (fun c => c == ':')).length

/-- Big-endian byte-list value. -/
def bytesToNat (bs : List Nat) : Nat :=
  bs.foldl (fun acc b => acc * 256 + b) 0

/-- Big-endian fixed-width bytes of a natural. -/
def natToBytes : Nat → Nat → List Nat
  | 0, _ => []
  | len + 1, n => natToBytes len (n / 256) ++ [n % 256]

/-- The GHASH reduction constant `R = 11100001 ∥ 0^120`. -/
def gcmR : Nat := 0xe1000000000000000000000000000000

/-- One hundred twenty-eight steps of the GF(2^128) multiplication algorithm
of SP 800-38D (bits MSB-first): scan the bits of `x`, conditionally
accumulating `v`, halving `v` with conditional reduction by `R`. -/
def gf128Go : Nat → Nat → Nat → Nat → Nat
  | 0, _, _, z => z
  | k + 1, xs, v, z =>
    let z1 := if xs / 2 ^ 127 % 2 = 1 then Nat.xor z v else z
    let v1 := if v % 2 = 0 then v / 2 else Nat.xor (v / 2) gcmR
    gf128Go k (xs * 2 % 2 ^ 128) v1 z1

/-- GF(2^128) product. -/
def gf128Mul (x y : Nat) : Nat :=
  gf128Go 128 x y 0

/-- GHASH over a sequence of 128-bit blocks with hash subkey `h`. -/
def ghashBlocks (h : Nat) (blocks : List Nat) : Nat :=
  blocks.foldl (fun y x => gf128Mul (Nat.xor y x) h) 0

/-- Split bytes into 16-byte blocks (as 128-bit naturals), the last block
zero-padded on the right. -/
def chunk16Go : Nat → List Nat → List Nat
  | 0, _ => []
  | _ + 1, [] => []
  | fuel + 1, l =>
    bytesToNat (l.take 16 ++ List.replicate (16 - (l.take 16).length) 0)
      :: chunk16Go fuel (l.drop 16)

/-- All 16-byte blocks of a byte string. -/
def chunk16 (l : List Nat) : List Nat :=
  chunk16Go l.length l

/-- The GHASH length block `[len(A)]64 ∥ [len(C)]64` (bit lengths). -/
def lenBlock (abits cbits : Nat) : Nat :=
  (abits % 2 ^ 64) * 2 ^ 64 + cbits % 2 ^ 64

/-- 32-bit wrapping increment of the counter block's low word. -/
def inc32 (blk : Nat) : Nat :=
  blk / 2 ^ 32 * 2 ^ 32 + (blk % 2 ^ 32 + 1) % 2 ^ 32

/-- CTR keystream blocks: `E` applied to successive counter blocks. -/
def ctrGo (E : List Nat → List Nat) : Nat → Nat → List Nat
  | 0, _ => []
  | k + 1, ctr => E (natToBytes 16 ctr) ++ ctrGo E k (inc32 ctr)

/-- The hash subkey `H = E(0^128)`. -/
def gcmH (E : List Nat → List Nat) : Nat :=
  bytesToNat (E (List.replicate 16 0))

/-- The pre-counter block `J0`: `iv ∥ 0^31 ∥ 1` for a 96-bit iv, otherwise
`GHASH(pad(iv) ∥ [0]64 ∥ [len(iv)]64)`. -/
def computeJ0 (h : Nat) (iv : List Nat) : Nat :=
  if iv.length = 12 then bytesToNat (iv ++ [0, 0, 0, 1])
  else ghashBlocks h (chunk16 iv ++ [lenBlock 0 (iv.length * 8)])

/-- `len` keystream bytes starting at `inc32(J0)`. -/
def gcmKeystream (E : List Nat → List Nat) (j0 len : Nat) : List Nat :=
  (ctrGo E ((len + 15) / 16) (inc32 j0)).take len

/-- Byte-wise XOR. -/
def xorBytes (a b : List Nat) : List Nat :=
  List.zipWith (fun x y => x ^^^ y) a b

/-- The GCM authentication tag (no additional data, full 128-bit tag):
`E(J0) ⊕ GHASH(pad(C) ∥ [0]64 ∥ [len(C)]64)`. -/
def gcmTag (E : List Nat → List Nat) (h j0 : Nat) (ct : List Nat) : List Nat :=
  natToBytes 16 (Nat.xor (bytesToNat (E (natToBytes 16 j0)))
    (ghashBlocks h (chunk16 ct ++ [lenBlock 0 (ct.length * 8)])))

/-- The ciphertext of `encrypt`: plaintext XOR keystream
(`cipher.update` / `cipher.final`). -/
def encCt (E : List Nat → List Nat) (iv pt : List Nat) : List Nat :=
  xorBytes pt (gcmKeystream E (computeJ0 (gcmH E) iv) pt.length)

/-- The authentication tag of `encrypt` (`cipher.getAuthTag()`). -/
def encTag (E : List Nat → List Nat) (iv pt : List Nat) : List Nat :=
  gcmTag E (gcmH E) (computeJ0 (gcmH E) iv) (encCt E iv pt)

/-- `encrypt` of `proof-generator.ts`:
`iv.toString('hex') + ':' + tag + ':' + encrypted`, with the random 12-byte
`iv` as a parameter. -/
def encrypt (E : List Nat → List Nat) (iv pt : List Nat) : List Char :=
  toHexChars iv ++ ':' :: (toHexChars (encTag E iv pt) ++ ':' :: toHexChars (encCt E iv pt))

/-- The GCM tag lengths `setAuthTag` accepts when the decipher was created
without an `authTagLength` option: the NIST SP 800-38D values
4, 8 and 12–16 bytes. -/
def validGCMTagLength (n : Nat) : Bool :=
  n == 4 || n == 8 || (decide (12 ≤ n) && decide (n ≤ 16))

/-- `decrypt` of `proof-generator.ts`: split on `':'` requiring exactly three
parts, hex-decode, run GCM decryption.  `node:crypto` requires a non-empty
iv; `setAuthTag` with no `authTagLength` option accepts any NIST GCM tag
length (4, 8 or 12–16 bytes) and `decipher.final()` throws unless the
supplied tag equals the recomputed 16-byte tag truncated to the supplied
length.  `none` models every thrown error. -/
def decrypt (E : List Nat → List Nat) (s : List Char) : Option (List Nat) :=
  match splitColon s with
  | [ivHex, tagHex, ctHex] =>
    let iv := hexDecode ivHex
    let tag := hexDecode tagHex
    let ct := hexDecode ctHex
    if iv.length = 0 then Option.none
    else if !(validGCMTagLength tag.length) then Option.none
    else if (gcmTag E (gcmH E) (computeJ0 (gcmH E) iv) ct).take tag.length == tag then
      some (xorBytes ct (gcmKeystream E (computeJ0 (gcmH E) iv) ct.length))
    else Option.none
  | _ => Option.none

/-- Every accepted tag length is at most the full 16 bytes. -/
theorem validGCMTagLength_le (n : Nat) (h : validGCMTagLength n = true) : n ≤ 16 := by
  simp only [validGCMTagLength, Bool.or_eq_true, Bool.and_eq_true, beq_iff_eq,
    decide_eq_true_eq] at h
  omega

/-- Colon-freeness of a character list. -/
def noColon (s : List Char) : Bool :=
  s.all (fun c => !(c == ':'))

theorem byteToHexChars_noColon : ∀ b : Nat, b < 256 → noColon (byteToHexChars b) = true := by
  decide

theorem hexVal_hexDigit : ∀ m : Nat, m < 16 → hexVal (hexDigit m) = some m := by
  decide

theorem noColon_append (a b : List Char) :
    noColon (a ++ b) = (noColon a && noColon b) := by
  simp [noColon, List.all_append]

theorem toHexChars_noColon : ∀ bs : List Nat, allBytesB bs = true →
    noColon (toHexChars bs) = true
  | [], _ => rfl
  | b :: t, h => by
    simp only [allBytesB, List.all_cons, Bool.and_eq_true, decide_eq_true_eq] at h
    show noColon (byteToHexChars b ++ toHexChars t) = true
    rw [noColon_append, byteToHexChars_noColon b h.1,
      toHexChars_noColon t (by simp [allBytesB, h.2]), Bool.and_self]

theorem hexDecode_toHexChars : ∀ bs : List Nat, allBytesB bs = true →
    hexDecode (toHexChars bs) = bs
  | [], _ => rfl
  | b :: t, h => by
    simp only [allBytesB, List.all_cons, Bool.and_eq_true, decide_eq_true_eq] at h
    show hexDecode (byteToHexChars b ++ toHexChars t) = b :: t
    show hexDecode (hexDigit (b / 16) :: hexDigit (b % 16) :: toHexChars t) = b :: t
    rw [hexDecode, hexVal_hexDigit (b / 16) (by omega), hexVal_hexDigit (b % 16) (by omega)]
    rw [hexDecode_toHexChars t (by simp [allBytesB, h.2])]
    show (16 * (b / 16) + b % 16) :: t = b :: t
    rw [Nat.div_add_mod]

theorem splitColon_no : ∀ s : List Char, noColon s = true → splitColon s = [s]
  | [], _ => rfl
  | c :: t, h => by
    simp only [noColon, List.all_cons, Bool.and_eq_true] at h
    have hc : ¬ (c = ':') := by
      intro hcc
      rw [hcc] at h
      simp at h
    rw [splitColon, if_neg hc, splitColon_no t (by simp [noColon, h.2])]

theorem splitColon_append : ∀ a r : List Char, noColon a = true →
    splitColon (a ++ ':' :: r) = a :: splitColon r
  | [], r, _ => by
    show splitColon (':' :: r) = [] :: splitColon r
    rw [splitColon, if_pos rfl]
  | c :: t, r, h => by
    simp only [noColon, List.all_cons, Bool.and_eq_true] at h
    have hc : ¬ (c = ':') := by
      intro hcc
      rw [hcc] at h
      simp at h
    show splitColon (c :: (t ++ ':' :: r)) = (c :: t) :: splitColon r
    rw [splitColon, if_neg hc, splitColon_append t r (by simp [noColon, h.2])]

theorem splitColon_three (a b c : List Char) (ha : noColon a = true)
    (hb : noColon b = true) (hc : noColon c = true) :
    splitColon (a ++ ':' :: (b ++ ':' :: c)) = [a, b, c] := by
  rw [splitColon_append a _ ha, splitColon_append b _ hb, splitColon_no c hc]

theorem natToBytes_length : ∀ len n : Nat, (natToBytes len n).length = len
  | 0, _ => rfl
  | len + 1, n => by
    rw [natToBytes, List.length_append, natToBytes_length len (n / 256)]
    rfl

theorem natToBytes_allBytes : ∀ len n : Nat, allBytesB (natToBytes len n) = true
  | 0, _ => rfl
  | len + 1, n => by
    rw [natToBytes]
    show ((natToBytes len (n / 256)) ++ [n % 256]).all _ = true
    rw [List.all_append]
    have h1 := natToBytes_allBytes len (n / 256)
    simp only [allBytesB] at h1
    rw [h1]
    simp
    omega

theorem ctrGo_length (E : List Nat → List Nat) (hE : ∀ x, (E x).length = 16) :
    ∀ (k c : Nat), (ctrGo E k c).length = 16 * k
  | 0, _ => rfl
  | k + 1, c => by
    rw [ctrGo, List.length_append, hE, ctrGo_length E hE k (inc32 c)]
    omega

theorem ctrGo_allBytes (E : List Nat → List Nat)
    (hEb : ∀ x, allBytesB (E x) = true) :
    ∀ (k c : Nat), allBytesB (ctrGo E k c) = true
  | 0, _ => rfl
  | k + 1, c => by
    rw [ctrGo]
    show ((E (natToBytes 16 c)) ++ ctrGo E k (inc32 c)).all _ = true
    rw [List.all_append]
    have h1 := hEb (natToBytes 16 c)
    have h2 := ctrGo_allBytes E hEb k (inc32 c)
    simp only [allBytesB] at h1 h2
    rw [h1, h2, Bool.and_self]

theorem allBytesB_take (l : List Nat) (n : Nat) (h : allBytesB l = true) :
    allBytesB (l.take n) = true := by
  simp only [allBytesB, List.all_eq_true] at h ⊢
  intro b hb
  exact h b ((List.take_subset n l) hb)

theorem gcmKeystream_length (E : List Nat → List Nat)
    (hE : ∀ x, (E x).length = 16) (j0 len : Nat) :
    (gcmKeystream E j0 len).length = len := by
  rw [gcmKeystream, List.length_take, ctrGo_length E hE]
  omega

theorem gcmKeystream_allBytes (E : List Nat → List Nat)
    (hEb : ∀ x, allBytesB (E x) = true) (j0 len : Nat) :
    allBytesB (gcmKeystream E j0 len) = true :=
  allBytesB_take _ _ (ctrGo_allBytes E hEb _ _)

theorem xorBytes_length (a b : List Nat) :
    (xorBytes a b).length = min a.length b.length := by
  simp [xorBytes]

theorem xorBytes_allBytes : ∀ a b : List Nat, allBytesB a = true →
    allBytesB b = true → allBytesB (xorBytes a b) = true
  | [], _, _, _ => rfl
  | _ :: _, [], _, _ => rfl
  | x :: xs, y :: ys, ha, hb => by
    simp only [allBytesB, List.all_cons, Bool.and_eq_true, decide_eq_true_eq] at ha hb
    show allBytesB ((x ^^^ y) :: xorBytes xs ys) = true
    have hx : x ^^^ y < 256 := by
      have := Nat.xor_lt_two_pow (n := 8) (by simpa using ha.1) (by simpa using hb.1)
      simpa using this
    have ht := xorBytes_allBytes xs ys (by simp [allBytesB, ha.2]) (by simp [allBytesB, hb.2])
    simp only [allBytesB, List.all_cons, Bool.and_eq_true, decide_eq_true_eq]
    exact ⟨hx, by simpa [allBytesB] using ht⟩

theorem xorBytes_cancel : ∀ a b : List Nat, a.length ≤ b.length →
    xorBytes (xorBytes a b) b = a
  | [], _, _ => rfl
  | x :: xs, y :: ys, h => by
    show (x ^^^ y ^^^ y) :: xorBytes (xorBytes xs ys) ys = x :: xs
    rw [Nat.xor_assoc, Nat.xor_self, Nat.xor_zero,
      xorBytes_cancel xs ys (by simpa using h)]

theorem splitColon_length : ∀ s : List Char, (splitColon s).length = countColon s + 1
  | [] => rfl
  | c :: t => by
    have ih := splitColon_length t
    by_cases hc : c = ':'
    · have hb : (c == ':') = true := by rw [hc]; rfl
      rw [splitColon, if_pos hc]
      simp only [List.length_cons, ih]
      simp [countColon, List.filter_cons, hb]
    · have hb : (c == ':') = false := by
        rcases hx : (c == ':') with _ | _
        · rfl
        · exact absurd (eq_of_beq hx) hc
      rw [splitColon, if_neg hc]
      rcases hsp : splitColon t with _ | ⟨p, ps⟩
      · rw [hsp] at ih
        simp at ih
      · rw [hsp] at ih
        simp only [List.length_cons] at ih ⊢
        simp only [countColon, List.filter_cons, hb] at ih ⊢
        simp only [Bool.false_eq_true, if_false]
        omega

/-- Malformed framing: unless the stored form has exactly two colons,
`decrypt` fails. -/
theorem decrypt_framing (E : List Nat → List Nat) (s : List Char)
    (h : countColon s ≠ 2) : decrypt E s = Option.none := by
  have hlen := splitColon_length s
  unfold decrypt
  rcases hsp : splitColon s with _ | ⟨a, _ | ⟨b, _ | ⟨c, _ | ⟨d, rest⟩⟩⟩⟩
  · rfl
  · rfl
  · rfl
  · exfalso
    rw [hsp] at hlen
    simp at hlen
    omega
  · rfl

/-- C9 (amended): for every block cipher `E` (the AES-256 permutation under
the loaded key, mapping 16-byte blocks to 16-byte blocks), every 12-byte iv
and every plaintext byte string: `decrypt (encrypt s) = s`; the stored form
splits on `':'` into exactly `hex(iv)`, `hex(tag)`, `hex(ciphertext)` with a
16-byte tag; replacing the tag field by the hex of any truncation of the real
tag to an accepted GCM tag length (4, 8 or 12–16 bytes) still decrypts to the
original plaintext (`setAuthTag` verifies by truncated comparison); replacing
the tag field by colon-free text whose decoded bytes are not such a
truncation makes `decrypt` fail; and any framing with a colon count other
than two makes `decrypt` fail.  (Alterations that change a stored byte
without changing its hex decoding — a hex letter's case — do not make
`decrypt` fail: see the counterexample.) -/
theorem encrypt_decrypt_spec :
    (∀ E : List Nat → List Nat,
      (∀ x, (E x).length = 16) → (∀ x, allBytesB (E x) = true) →
      ∀ iv pt : List Nat, iv.length = 12 → allBytesB iv = true → allBytesB pt = true →
        decrypt E (encrypt E iv pt) = some pt
        ∧ splitColon (encrypt E iv pt) =
            [toHexChars iv, toHexChars (encTag E iv pt), toHexChars (encCt E iv pt)]
        ∧ (encTag E iv pt).length = 16
        ∧ (∀ n : Nat, validGCMTagLength n = true →
            decrypt E (toHexChars iv ++ ':' ::
                (toHexChars ((encTag E iv pt).take n) ++ ':' ::
                  toHexChars (encCt E iv pt)))
              = some pt)
        ∧ (∀ t' : List Char, noColon t' = true →
            ¬(validGCMTagLength (hexDecode t').length = true ∧
              hexDecode t' = (encTag E iv pt).take (hexDecode t').length) →
            decrypt E (toHexChars iv ++ ':' :: (t' ++ ':' :: toHexChars (encCt E iv pt)))
              = Option.none))
    ∧ (∀ (E : List Nat → List Nat) (s : List Char), countColon s ≠ 2 →
        decrypt E s = Option.none) := by
  constructor
  · intro E hE hEb iv pt hiv12 hivb hptb
    have hksb : allBytesB (gcmKeystream E (computeJ0 (gcmH E) iv) pt.length) = true :=
      gcmKeystream_allBytes E hEb _ _
    have hctB : allBytesB (encCt E iv pt) = true :=
      xorBytes_allBytes pt _ hptb hksb
    have htagB : allBytesB (encTag E iv pt) = true := natToBytes_allBytes 16 _
    have htagL : (encTag E iv pt).length = 16 := natToBytes_length 16 _
    have hgl : (gcmTag E (gcmH E) (computeJ0 (gcmH E) iv) (encCt E iv pt)).length = 16 :=
      natToBytes_length 16 _
    have hivN := toHexChars_noColon iv hivb
    have htagN := toHexChars_noColon _ htagB
    have hctN := toHexChars_noColon _ hctB
    have hsplit : splitColon (encrypt E iv pt) =
        [toHexChars iv, toHexChars (encTag E iv pt), toHexChars (encCt E iv pt)] := by
      unfold encrypt
      exact splitColon_three _ _ _ hivN htagN hctN
    have hctlen : (encCt E iv pt).length = pt.length := by
      show (xorBytes pt _).length = pt.length
      rw [xorBytes_length, gcmKeystream_length E hE]
      omega
    refine ⟨?_, hsplit, htagL, ?_, ?_⟩
    · unfold decrypt
      rw [hsplit]
      dsimp only
      rw [hexDecode_toHexChars iv hivb, hexDecode_toHexChars _ htagB,
        hexDecode_toHexChars _ hctB]
      rw [if_neg (by rw [hiv12]; omega)]
      rw [htagL]
      rw [if_neg (by decide)]
      rw [List.take_of_length_le (le_of_eq hgl)]
      rw [show encTag E iv pt
          = gcmTag E (gcmH E) (computeJ0 (gcmH E) iv) (encCt E iv pt) from rfl]
      rw [if_pos (beq_self_eq_true _)]
      rw [hctlen]
      show some (xorBytes (xorBytes pt _) _) = some pt
      rw [xorBytes_cancel pt _ (by rw [gcmKeystream_length E hE])]
    · intro n hvn
      have hn16 : n ≤ 16 := validGCMTagLength_le n hvn
      have htkB : allBytesB ((encTag E iv pt).take n) = true :=
        allBytesB_take _ _ htagB
      have htkL : ((encTag E iv pt).take n).length = n := by
        rw [List.length_take, htagL]
        omega
      have htkN := toHexChars_noColon _ htkB
      unfold decrypt
      rw [splitColon_three _ _ _ hivN htkN hctN]
      dsimp only
      rw [hexDecode_toHexChars iv hivb, hexDecode_toHexChars _ htkB,
        hexDecode_toHexChars _ hctB]
      rw [if_neg (by rw [hiv12]; omega)]
      rw [htkL]
      rw [if_neg (by simp [hvn])]
      rw [show encTag E iv pt
          = gcmTag E (gcmH E) (computeJ0 (gcmH E) iv) (encCt E iv pt) from rfl]
      rw [if_pos (beq_self_eq_true _)]
      rw [hctlen]
      show some (xorBytes (xorBytes pt _) _) = some pt
      rw [xorBytes_cancel pt _ (by rw [gcmKeystream_length E hE])]
    · intro t' ht' hbad
      unfold decrypt
      rw [splitColon_three _ _ _ hivN ht' hctN]
      dsimp only
      rw [hexDecode_toHexChars iv hivb, hexDecode_toHexChars _ hctB]
      rw [if_neg (by rw [hiv12]; omega)]
      by_cases hv : validGCMTagLength (hexDecode t').length = true
      · have hne : hexDecode t' ≠ (encTag E iv pt).take (hexDecode t').length :=
          fun h => hbad ⟨hv, h⟩
        rw [if_neg (by simp [hv])]
        rw [if_neg (fun hco : ((gcmTag E (gcmH E) (computeJ0 (gcmH E) iv)
              (encCt E iv pt)).take (hexDecode t').length == hexDecode t') = true =>
            hne ((eq_of_beq hco).symm))]
      · have hvf : validGCMTagLength (hexDecode t').length = false :=
          Bool.eq_false_iff.mpr hv
        rw [if_pos (by rw [hvf]; rfl)]
  · exact decrypt_framing

/-- C9 counterexample: with the ciphertext `0xab` stored as the hex pair
`"ab"`, flipping the case of its first hex digit (`'a'` at index 58 becomes
`'A'`) alters a byte of the stored form, yet hex decoding is
case-insensitive, so `decrypt` still succeeds and returns the original
plaintext — refuting "altering any byte of the stored form makes decrypt
fail". -/
theorem decrypt_hex_case_counterexample :
    ((encrypt (fun _ => List.replicate 16 171) (List.replicate 12 0) [0]).take 58
        ++ 'A' :: (encrypt (fun _ => List.replicate 16 171) (List.replicate 12 0) [0]).drop 59)
      ≠ encrypt (fun _ => List.replicate 16 171) (List.replicate 12 0) [0]
    ∧ decrypt (fun _ => List.replicate 16 171)
        ((encrypt (fun _ => List.replicate 16 171) (List.replicate 12 0) [0]).take 58
          ++ 'A' :: (encrypt (fun _ => List.replicate 16 171) (List.replicate 12 0) [0]).drop 59)
      = some [0] :=
  ⟨by decide, by decide⟩

/-- C9 witness: the amended theorem applied at a concrete block cipher,
iv and plaintext — round trip, a 12-byte truncation of the tag field that
still decrypts, a tag-field tamper (an all-zero tag field) that fails, and a
colon-free framing, with every hypothesis discharged by computation. -/
theorem encrypt_decrypt_spec_witness :
    decrypt (fun _ => List.replicate 16 171)
        (encrypt (fun _ => List.replicate 16 171) (List.replicate 12 0) [0]) = some [0]
    ∧ decrypt (fun _ => List.replicate 16 171)
        (toHexChars (List.replicate 12 0) ++ ':' ::
          (toHexChars ((encTag (fun _ => List.replicate 16 171)
              (List.replicate 12 0) [0]).take 12) ++ ':' ::
            toHexChars (encCt (fun _ => List.replicate 16 171) (List.replicate 12 0) [0])))
      = some [0]
    ∧ decrypt (fun _ => List.replicate 16 171)
        (toHexChars (List.replicate 12 0) ++ ':' ::
          (List.replicate 32 '0' ++ ':' ::
            toHexChars (encCt (fun _ => List.replicate 16 171) (List.replicate 12 0) [0])))
      = Option.none
    ∧ decrypt (fun _ => List.replicate 16 171) ['x'] = Option.none :=
  ⟨(encrypt_decrypt_spec.1 (fun _ => List.replicate 16 171) (fun _ => rfl) (fun _ => rfl)
      (List.replicate 12 0) [0] rfl rfl rfl).1,
   (encrypt_decrypt_spec.1 (fun _ => List.replicate 16 171) (fun _ => rfl) (fun _ => rfl)
      (List.replicate 12 0) [0] rfl rfl rfl).2.2.2.1 12 (by decide),
   (encrypt_decrypt_spec.1 (fun _ => List.replicate 16 171) (fun _ => rfl) (fun _ => rfl)
      (List.replicate 12 0) [0] rfl rfl rfl).2.2.2.2 (List.replicate 32 '0')
      (by decide) (by decide),
   encrypt_decrypt_spec.2 (fun _ => List.replicate 16 171) ['x'] (by decide)⟩

end Vouch
